import Mathlib

/-!
The pdatagen package orchestrator.

A shallow embedding of `pdata/internal/cmd/pdatagen/internal/packages.go`
(the three generation passes of a `Package`) together with theorems about
the files the passes write.

Conventions of the embedding:

* a Go `string` and the contents of a `bytes.Buffer` are Lean `String`s
  (valid UTF-8 text); `sb.WriteString(x)` is `sb ++ x`;
* `os.WriteFile` is a parameter `writeFile path data : σ → Except ε Unit × σ`
  acting on an arbitrary world state `σ`; a Go `error` result is
  `Except ε Unit`, with `.ok ()` for `nil`;
* `for _, s := range p.structs` is structural recursion on the list.
-/

set_option autoImplicit false

namespace Pdatagen

/-! ## Constants -/

/-- The constant `header`: the license banner followed by the generated-file
disclaimer. -/
def header : String :=
  "// Copyright The OpenTelemetry Authors\n" ++
  "//\n" ++
  "// Licensed under the Apache License, Version 2.0 (the \"License\");\n" ++
  "// you may not use this file except in compliance with the License.\n" ++
  "// You may obtain a copy of the License at\n" ++
  "//\n" ++
  "//      http://www.apache.org/licenses/LICENSE-2.0\n" ++
  "//\n" ++
  "// Unless required by applicable law or agreed to in writing, software\n" ++
  "// distributed under the License is distributed on an \"AS IS\" BASIS,\n" ++
  "// WITHOUT WARRANTIES OR CONDITIONS OF ANY KIND, either express or implied.\n" ++
  "// See the License for the specific language governing permissions and\n" ++
  "// limitations under the License.\n" ++
  "\n" ++
  "// Code generated by \"pdata/internal/cmd/pdatagen/main.go\". DO NOT EDIT.\n" ++
  "// To regenerate this file run \"make genpdata\"."

/-- The constant `newLine`. -/
def newLine : String := "\n"

/-! ## Data model -/

/-- Modelled from the spec: the interface `baseStruct` is declared in another
file of the generator. A descriptor reports its name and has four generators,
each of which appends a text fixed at construction time to the buffer it is
handed (spec §4.1: pure operations, each appending text to an output buffer).
The four texts are the fields below; the generators themselves are the
functions `BaseStruct.generateStruct` and its siblings. -/
structure BaseStruct where
  getName : String
  structText : String
  testsText : String
  internalText : String
  testValueHelpersText : String
  deriving DecidableEq, Repr

/-- The call `s.generateStruct(&sb)`. -/
def BaseStruct.generateStruct (s : BaseStruct) (sb : String) : String :=
  sb ++ s.structText

/-- The call `s.generateTests(&sb)`. -/
def BaseStruct.generateTests (s : BaseStruct) (sb : String) : String :=
  sb ++ s.testsText

/-- The call `s.generateInternal(&sb)`. -/
def BaseStruct.generateInternal (s : BaseStruct) (sb : String) : String :=
  sb ++ s.internalText

/-- The call `s.generateTestValueHelpers(&sb)`. -/
def BaseStruct.generateTestValueHelpers (s : BaseStruct) (sb : String) : String :=
  sb ++ s.testValueHelpersText

/-- The struct `Package`. -/
structure Package where
  name : String
  path : String
  imports : List String
  testImports : List String
  structs : List BaseStruct
  deriving DecidableEq, Repr

/-- The function `usedByOtherDataTypes`. -/
def usedByOtherDataTypes (packageName : String) : Bool :=
  packageName == "pcommon"

/-- The function `generateHeader`, on the buffer it is handed. -/
def generateHeader (sb : String) (packageName : String) : String :=
  let sb := sb ++ header
  let sb := sb ++ (newLine ++ newLine)
  let sb := sb ++ ("package " ++ packageName)
  sb ++ (newLine ++ newLine)

/-! ## Standard-library functions the passes call

`strings.ToLower`, `strings.Join` and `filepath.Join` with `filepath.Clean`, in
their Unix implementation. `filepath.Clean` scans the path byte by byte; the
model states the same scan on whole path elements. -/

/-- Go `unicode.ToLower` on one rune. The ASCII range is the branch the
library takes for `r <= MaxASCII`; above it the library consults the Unicode
case tables, which are the parameter `caseTable`. -/
def unicodeToLower (caseTable : Char → Char) (r : Char) : Char :=
  if r.toNat ≤ 127 then
    if 'A'.toNat ≤ r.toNat ∧ r.toNat ≤ 'Z'.toNat then Char.ofNat (r.toNat + ('a'.toNat - 'A'.toNat))
    else r
  else caseTable r

/-- Go `strings.ToLower`: every rune mapped through `unicode.ToLower`. -/
def toLower (caseTable : Char → Char) (s : String) : String :=
  String.mk (s.data.map (unicodeToLower caseTable))

/-- The path elements of a path: the pieces between separators `/`. -/
def splitElems : List Char → List (List Char)
  | [] => [[]]
  | c :: cs =>
    if c = '/' then [] :: splitElems cs
    else
      match splitElems cs with
      | [] => [[c]]
      | e :: es => (c :: e) :: es

/-- One round of the scanning loop of Go `filepath.Clean` (Unix), on a whole
path element. `out` holds the elements written so far, last one first.
An empty element and `.` are skipped; `..` removes the last element when the
scan can backtrack (there is an element that is not part of a leading run of
`..`), is appended when it cannot and the path is not rooted, and is dropped
otherwise; any other element is appended. -/
def cleanElem (rooted : Bool) (out : List (List Char)) (e : List Char) : List (List Char) :=
  if e = [] then out
  else if e = ['.'] then out
  else if e = ['.', '.'] then
    match out with
    | [] => if rooted then out else e :: out
    | top :: below =>
      if rooted || top ≠ ['.', '.'] then below
      else e :: out
  else e :: out

/-- The elements joined by single separators. -/
def joinElems : List (List Char) → List Char
  | [] => []
  | [e] => e
  | e :: es => e ++ '/' :: joinElems es

/-- Go `filepath.Clean` (Unix) on the characters of a path: the empty path
becomes `.`; otherwise the elements are scanned with `cleanElem`, written
back with single separators after the leading `/` of a rooted path, and an
empty result becomes `.`. -/
def cleanChars (path : List Char) : List Char :=
  if path = [] then ['.']
  else
    let rooted := path.head? == some '/'
    let out := (splitElems path).foldl (cleanElem rooted) []
    let body := joinElems out.reverse
    let s := if rooted then '/' :: body else body
    if s = [] then ['.'] else s

/-- Go `filepath.Clean` (Unix). -/
def filepathClean (path : String) : String :=
  String.mk (cleanChars path.data)

/-- Go `strings.Join`. -/
def stringsJoin (sep : String) : List String → String
  | [] => ""
  | [e] => e
  | e :: es => e ++ sep ++ stringsJoin sep es

/-- Go `filepath.Join` (Unix): the elements from the first non-empty one on
are joined with the separator and the result is cleaned; with no non-empty
element the result is the empty string. -/
def filepathJoin : List String → String
  | [] => ""
  | e :: es =>
    if e ≠ "" then filepathClean (stringsJoin "/" (e :: es))
    else filepathJoin es

/-! ## The three passes -/

section Passes

variable {σ ε : Type}

/-- The loop of `GenerateFiles` over the structs still to be generated. -/
def GenerateFilesLoop (caseTable : Char → Char)
    (writeFile : String → String → σ → Except ε Unit × σ) (p : Package) :
    List BaseStruct → σ → Except ε Unit × σ
  | [], w => (.ok (), w)
  | s :: rest, w =>
    let sb := ""
    let sb := generateHeader sb p.name
    -- Add imports
    let sb := sb ++ ("import (" ++ newLine)
    let sb := p.imports.foldl
      (fun sb imp => if imp ≠ "" then sb ++ ("\t" ++ imp ++ newLine) else sb ++ newLine) sb
    let sb := sb ++ ")"
    -- Write all structs
    let sb := sb ++ (newLine ++ newLine)
    let sb := s.generateStruct sb
    let sb := sb ++ newLine
    let path := filepathJoin ["pdata", p.path, "generated_" ++ toLower caseTable s.getName ++ ".go"]
    match writeFile path sb w with
    | (.error err, w) => (.error err, w)
    | (.ok _, w) => GenerateFilesLoop caseTable writeFile p rest w

/-- The method `Package.GenerateFiles`. -/
def GenerateFiles (caseTable : Char → Char)
    (writeFile : String → String → σ → Except ε Unit × σ) (p : Package) (w : σ) :
    Except ε Unit × σ :=
  GenerateFilesLoop caseTable writeFile p p.structs w

/-- The loop of `GenerateTestFiles` over the structs still to be generated. -/
def GenerateTestFilesLoop (caseTable : Char → Char)
    (writeFile : String → String → σ → Except ε Unit × σ) (p : Package) :
    List BaseStruct → σ → Except ε Unit × σ
  | [], w => (.ok (), w)
  | s :: rest, w =>
    let sb := ""
    let sb := generateHeader sb p.name
    -- Add imports
    let sb := sb ++ ("import (" ++ newLine)
    let sb := p.testImports.foldl
      (fun sb imp => if imp ≠ "" then sb ++ ("\t" ++ imp ++ newLine) else sb ++ newLine) sb
    let sb := sb ++ ")"
    -- Write all tests
    let sb := sb ++ (newLine ++ newLine)
    let sb := s.generateTests sb
    let sb :=
      if !usedByOtherDataTypes p.name then
        let sb := sb ++ (newLine ++ newLine)
        s.generateTestValueHelpers sb
      else sb
    let path :=
      filepathJoin ["pdata", p.path, "generated_" ++ toLower caseTable s.getName ++ "_test.go"]
    match writeFile path sb w with
    | (.error err, w) => (.error err, w)
    | (.ok _, w) => GenerateTestFilesLoop caseTable writeFile p rest w

/-- The method `Package.GenerateTestFiles`. -/
def GenerateTestFiles (caseTable : Char → Char)
    (writeFile : String → String → σ → Except ε Unit × σ) (p : Package) (w : σ) :
    Except ε Unit × σ :=
  GenerateTestFilesLoop caseTable writeFile p p.structs w

/-- The loop of `GenerateInternalFiles` over the structs still to be
generated. -/
def GenerateInternalFilesLoop (caseTable : Char → Char)
    (writeFile : String → String → σ → Except ε Unit × σ) (p : Package) :
    List BaseStruct → σ → Except ε Unit × σ
  | [], w => (.ok (), w)
  | s :: rest, w =>
    let sb := ""
    let sb := generateHeader sb "internal"
    -- Add imports
    let sb := sb ++ ("import (" ++ newLine)
    let sb := p.imports.foldl
      (fun sb imp => if imp ≠ "" then sb ++ ("\t" ++ imp ++ newLine) else sb ++ newLine) sb
    let sb := sb ++ ")"
    -- Write all types and funcs
    let sb := s.generateInternal sb
    let sb := sb ++ newLine
    -- Write all tests generate value
    let sb := sb ++ (newLine ++ newLine)
    let sb := s.generateTestValueHelpers sb
    let sb := sb ++ newLine
    let path :=
      filepathJoin ["pdata", "internal",
        "generated_wrapper_" ++ toLower caseTable s.getName ++ ".go"]
    match writeFile path sb w with
    | (.error err, w) => (.error err, w)
    | (.ok _, w) => GenerateInternalFilesLoop caseTable writeFile p rest w

/-- The method `Package.GenerateInternalFiles`. -/
def GenerateInternalFiles (caseTable : Char → Char)
    (writeFile : String → String → σ → Except ε Unit × σ) (p : Package) (w : σ) :
    Except ε Unit × σ :=
  if !usedByOtherDataTypes p.name then (.ok (), w)
  else GenerateInternalFilesLoop caseTable writeFile p p.structs w

end Passes

/-! ## Worlds the passes run in -/

/-- A world that records every call of `writeFile`: the pair of the
underlying world and the list of `(path, data)` calls made so far, oldest
first. -/
def traced {σ ε : Type} (writeFile : String → String → σ → Except ε Unit × σ)
    (path data : String) (w : σ × List (String × String)) :
    Except ε Unit × (σ × List (String × String)) :=
  ((writeFile path data w.1).1, ((writeFile path data w.1).2, w.2 ++ [(path, data)]))

/-- A filesystem state: a map from path to file contents. -/
abbrev FS := String → Option String

/-- The filesystem with no file. -/
def FS.empty : FS := fun _ => none

/-- A write that succeeds: the whole file at `path` is replaced by `data`. -/
def FS.writeFile (path data : String) (fs : FS) : Except String Unit × FS :=
  (.ok (), fun q => if q = path then some data else fs q)

/-- The three passes. -/
inductive Pass where
  | files
  | testFiles
  | internalFiles
  deriving DecidableEq, Repr

/-- One of the three passes, run. -/
def Pass.run {σ ε : Type} (pass : Pass) (caseTable : Char → Char)
    (writeFile : String → String → σ → Except ε Unit × σ) (p : Package) (w : σ) :
    Except ε Unit × σ :=
  match pass with
  | .files => GenerateFiles caseTable writeFile p w
  | .testFiles => GenerateTestFiles caseTable writeFile p w
  | .internalFiles => GenerateInternalFiles caseTable writeFile p w

/-! ## What a pass writes, in closed form -/

/-- The import block the passes write for an import list: the statements from
`sb.WriteString("import (" + newLine)` to `sb.WriteString(")")`, run on an
empty buffer. -/
def importBlock (imports : List String) : String :=
  let sb := ""
  let sb := sb ++ ("import (" ++ newLine)
  let sb := imports.foldl
    (fun sb imp => if imp ≠ "" then sb ++ ("\t" ++ imp ++ newLine) else sb ++ newLine) sb
  sb ++ ")"

/-- The path and the contents one iteration of a pass hands to `writeFile`
for the struct `s` of the package `p`. -/
def Pass.job (pass : Pass) (caseTable : Char → Char) (p : Package) (s : BaseStruct) :
    String × String :=
  match pass with
  | .files =>
    (filepathJoin ["pdata", p.path, "generated_" ++ toLower caseTable s.getName ++ ".go"],
      header ++ "\n\n" ++ "package " ++ p.name ++ "\n\n" ++ importBlock p.imports ++ "\n\n"
        ++ s.structText ++ "\n")
  | .testFiles =>
    (filepathJoin ["pdata", p.path, "generated_" ++ toLower caseTable s.getName ++ "_test.go"],
      header ++ "\n\n" ++ "package " ++ p.name ++ "\n\n" ++ importBlock p.testImports ++ "\n\n"
        ++ s.testsText
        ++ (if usedByOtherDataTypes p.name then "" else "\n\n" ++ s.testValueHelpersText))
  | .internalFiles =>
    (filepathJoin ["pdata", "internal",
        "generated_wrapper_" ++ toLower caseTable s.getName ++ ".go"],
      header ++ "\n\n" ++ "package " ++ "internal" ++ "\n\n" ++ importBlock p.imports
        ++ s.internalText ++ "\n" ++ "\n\n" ++ s.testValueHelpersText ++ "\n")

/-- The writes a pass makes for a package when none fails, in order: one per
struct, except that the internal pass makes none for a package that is not
used by other data types. -/
def Pass.jobs (pass : Pass) (caseTable : Char → Char) (p : Package) : List (String × String) :=
  match pass with
  | .files => p.structs.map (Pass.files.job caseTable p)
  | .testFiles => p.structs.map (Pass.testFiles.job caseTable p)
  | .internalFiles =>
    if usedByOtherDataTypes p.name then p.structs.map (Pass.internalFiles.job caseTable p)
    else []

/-- The given writes made one after the other, stopping at the first one that
fails and returning its error. -/
def writeAll {σ ε : Type} (writeFile : String → String → σ → Except ε Unit × σ) :
    List (String × String) → σ → Except ε Unit × σ
  | [], w => (.ok (), w)
  | j :: rest, w =>
    match writeFile j.1 j.2 w with
    | (.error err, w) => (.error err, w)
    | (.ok _, w) => writeAll writeFile rest w

/-- The world after the given writes have all been made, whatever they
returned. -/
def worldAfter {σ ε : Type} (writeFile : String → String → σ → Except ε Unit × σ)
    (jobs : List (String × String)) (w : σ) : σ :=
  jobs.foldl (fun w j => (writeFile j.1 j.2 w).2) w

/-- The write at index `i` of `jobs`, made in the world the writes before it
leave behind, succeeds. -/
def succeedsAt {σ ε : Type} (writeFile : String → String → σ → Except ε Unit × σ)
    (jobs : List (String × String)) (w : σ) (i : Nat) : Prop :=
  ∀ j, jobs[i]? = some j →
    (writeFile j.1 j.2 (worldAfter writeFile (jobs.take i) w)).1 = .ok ()

/-- The write at index `i` of `jobs`, made in the world the writes before it
leave behind, fails with the error `e`. -/
def failsAt {σ ε : Type} (writeFile : String → String → σ → Except ε Unit × σ)
    (jobs : List (String × String)) (w : σ) (i : Nat) (e : ε) : Prop :=
  ∃ j, jobs[i]? = some j ∧
    (writeFile j.1 j.2 (worldAfter writeFile (jobs.take i) w)).1 = .error e

/-- The writes before index `i` of `jobs` all succeed, each made in the world
the writes before it leave behind. -/
def succeedsBefore {σ ε : Type} (writeFile : String → String → σ → Except ε Unit × σ)
    (jobs : List (String × String)) (w : σ) (i : Nat) : Prop :=
  ∀ j, j < i → succeedsAt writeFile jobs w j

/-- A filesystem that refuses to write the paths in `denied`, leaving the
state unchanged, and writes every other path. -/
def FS.writeFileUnless (denied : List String) (path data : String) (fs : FS) :
    Except String Unit × FS :=
  if path ∈ denied then (.error ("open " ++ path ++ ": permission denied"), fs)
  else FS.writeFile path data fs

/-! ## Example descriptors -/

/-- A struct descriptor named `Widget`. -/
def widget : BaseStruct :=
  { getName := "Widget"
    structText := "type Widget struct{}"
    testsText := "func TestWidget(t *testing.T) {}"
    internalText := "\n\ntype Widget struct{ orig *int }"
    testValueHelpersText := "func GenerateTestWidget() Widget { return Widget{} }" }

/-- A struct descriptor named `Gadget`. -/
def gadget : BaseStruct :=
  { getName := "Gadget"
    structText := "type Gadget struct{}"
    testsText := "func TestGadget(t *testing.T) {}"
    internalText := "\n\ntype Gadget struct{ orig *int }"
    testValueHelpersText := "func GenerateTestGadget() Gadget { return Gadget{} }" }

/-- A struct descriptor named `Sprocket`. -/
def sprocket : BaseStruct :=
  { getName := "Sprocket"
    structText := "type Sprocket struct{}"
    testsText := "func TestSprocket(t *testing.T) {}"
    internalText := "\n\ntype Sprocket struct{ orig *int }"
    testValueHelpersText := "func GenerateTestSprocket() Sprocket { return Sprocket{} }" }

/-- A package that is not used by other data types. -/
def demo : Package :=
  { name := "demo"
    path := "demo"
    imports := ["\"sort\"", "", "\"go.opentelemetry.io/collector/pdata/internal\""]
    testImports := ["\"testing\""]
    structs := [widget, gadget, sprocket] }

/-- A package with the name of the one used by other data types. -/
def demoCommon : Package :=
  { name := "pcommon"
    path := "pcommon"
    imports := ["\"sort\""]
    testImports := ["\"testing\""]
    structs := [widget, gadget, sprocket] }

/-- A struct descriptor whose test body already holds the text of its
test-value helper. -/
def echo : BaseStruct :=
  { getName := "Echo"
    structText := "type Echo struct{}"
    testsText := "func fixtureEcho() Echo { return Echo{} }\n\nfunc TestEcho(t *testing.T) {}"
    internalText := "\n\ntype Echo struct{ orig *int }"
    testValueHelpersText := "func fixtureEcho() Echo { return Echo{} }" }

/-- A package with the name of the one used by other data types, holding
`echo`. -/
def echoCommon : Package :=
  { name := "pcommon"
    path := "pcommon"
    imports := []
    testImports := ["\"testing\""]
    structs := [echo] }

/-! ## Paths of a registry -/

/-- The paths a pass computes over a registry: for every package, in order,
the path for every struct of the package, in order. -/
def registryPaths (pass : Pass) (caseTable : Char → Char) (registry : List Package) :
    List String :=
  registry.flatMap (fun p => p.structs.map (fun s => (pass.job caseTable p s).1))

/-- The elements `filepath.Clean` has written after scanning the unrooted
path `dir`, last one first. -/
def dirStack (dir : List Char) : List (List Char) :=
  (splitElems dir).foldl (cleanElem false) []

/-- What `filepath.Clean` has written before a further element is appended to
the elements `out`: nothing when there is none, else the elements and a
separator. -/
def dirPart (out : List (List Char)) : List Char :=
  if out = [] then [] else joinElems out.reverse ++ ['/']

/-- A struct descriptor named `widget`, in lower case. -/
def widgetLower : BaseStruct :=
  { getName := "widget"
    structText := "type widget struct{}"
    testsText := "func Test_widget(t *testing.T) {}"
    internalText := "\n\ntype widget struct{ orig *int }"
    testValueHelpersText := "func generateTestWidget() widget { return widget{} }" }

/-- A package named `pcommon` with two structs whose names differ in case
only. -/
def clashCommon : Package :=
  { name := "pcommon"
    path := "pcommon"
    imports := []
    testImports := []
    structs := [widget, widgetLower] }

/-- A registry of one package with two structs whose names differ in case
only. -/
def caseRegistry : List Package :=
  [{ name := "demo", path := "demo", imports := [], testImports := [],
     structs := [widget, widgetLower] }]

/-- A registry of two packages in which a struct name holds a separator. -/
def slashRegistry : List Package :=
  [{ name := "demo", path := "demo", imports := [], testImports := [],
     structs := [{ widget with getName := "x/generated_y" }] },
   { name := "nested", path := "demo/generated_x", imports := [], testImports := [],
     structs := [{ widget with getName := "y" }] }]

/-- A registry of two packages whose paths differ as text and name the same
directory. -/
def dotRegistry : List Package :=
  [{ name := "demo", path := "demo", imports := [], testImports := [], structs := [widget] },
   { name := "again", path := "./demo", imports := [], testImports := [],
     structs := [widget] }]

/-! ## Descriptors and definitions for order, import blocks and collisions -/

/-- A struct descriptor named `Widget_test`. -/
def widgetTest : BaseStruct :=
  { getName := "Widget_test"
    structText := "type Widget_test struct{}"
    testsText := "func TestWidget_test(t *testing.T) {}"
    internalText := "\n\ntype Widget_test struct{ orig *int }"
    testValueHelpersText := "func GenerateTestWidget_test() Widget_test { return Widget_test{} }" }

/-- A package with a struct whose name is the name of another one followed by
`_test`. -/
def suffixClash : Package :=
  { name := "demo"
    path := "demo"
    imports := []
    testImports := []
    structs := [widget, widgetTest] }

/-- A struct descriptor named `WIDGET`, in upper case. -/
def widgetUpper : BaseStruct :=
  { getName := "WIDGET"
    structText := "type WIDGET struct{}"
    testsText := "func Test_WIDGET(t *testing.T) {}"
    internalText := "\n\ntype WIDGET struct{ orig *int }"
    testValueHelpersText := "func GenerateTestWIDGET() WIDGET { return WIDGET{} }" }

/-- A package with three structs whose names differ in case only. -/
def tripleClash : Package :=
  { name := "demo"
    path := "demo"
    imports := []
    testImports := []
    structs := [widget, widgetLower, widgetUpper] }

/-- A struct descriptor whose name holds separators and a `..` element. -/
def widgetDetour : BaseStruct :=
  { getName := "x/../generated_widget"
    structText := "type detour struct{}"
    testsText := "func Test_detour(t *testing.T) {}"
    internalText := "\n\ntype detour struct{ orig *int }"
    testValueHelpersText := "func GenerateTestDetour() detour { return detour{} }" }

/-- A package with exactly two structs whose names are equal after
lower-casing, followed by a struct with another name that is written to the
same path. -/
def detourClash : Package :=
  { name := "demo"
    path := "demo"
    imports := []
    testImports := []
    structs := [widget, widgetLower, widgetDetour] }

/-- The package `demo` with another list of test imports. -/
def demoOtherTests : Package :=
  { demo with testImports := ["\"testing\"", "", "\"github.com/stretchr/testify/assert\""] }

/-- The package `demo` with another list of imports. -/
def demoOtherImports : Package :=
  { demo with imports := ["\"fmt\""] }

/-- The line of an import block for one entry, in the words of the
specification: a tab and the entry, or, for the empty entry, an empty line. -/
def importLineSpec (entry : String) : String :=
  if entry = "" then "\n" else "\t" ++ entry ++ "\n"

/-- The lines of an import block, in the words of the specification: one line
for each entry, in list order. -/
def importLinesSpec : List String → String
  | [] => ""
  | entry :: rest => importLineSpec entry ++ importLinesSpec rest

/-- The import block in the words of the specification: `import (` and a
newline, the lines, and `)`. -/
def importBlockSpec (imports : List String) : String :=
  "import (" ++ "\n" ++ importLinesSpec imports ++ ")"

/-! ## Lemmas on buffers and loops -/

theorem imports_foldl_append (imports : List String) (a b : String) :
    imports.foldl
        (fun sb imp => if imp ≠ "" then sb ++ ("\t" ++ imp ++ newLine) else sb ++ newLine)
        (a ++ b)
      = a ++ imports.foldl
        (fun sb imp => if imp ≠ "" then sb ++ ("\t" ++ imp ++ newLine) else sb ++ newLine) b := by
  induction imports generalizing b with
  | nil => rfl
  | cons imp rest ih =>
    simp only [List.foldl_cons]
    split
    · rw [String.append_assoc, ih]
    · rw [String.append_assoc, ih]

theorem newLine_newLine : newLine ++ newLine = "\n\n" := by decide

theorem imports_code_eq (sb : String) (imports : List String) :
    imports.foldl
        (fun sb imp => if imp ≠ "" then sb ++ ("\t" ++ imp ++ newLine) else sb ++ newLine)
        (sb ++ ("import (" ++ newLine)) ++ ")"
      = sb ++ importBlock imports := by
  rw [imports_foldl_append]
  simp only [importBlock, String.append_assoc, String.empty_append]

theorem generateHeader_eq (sb name : String) :
    generateHeader sb name = sb ++ (header ++ "\n\n" ++ "package " ++ name ++ "\n\n") := by
  simp only [generateHeader, newLine_newLine, String.append_assoc]

theorem GenerateFilesLoop_eq {σ ε : Type} (caseTable : Char → Char)
    (writeFile : String → String → σ → Except ε Unit × σ) (p : Package)
    (l : List BaseStruct) (w : σ) :
    GenerateFilesLoop caseTable writeFile p l w
      = writeAll writeFile (l.map (Pass.files.job caseTable p)) w := by
  induction l generalizing w with
  | nil => rfl
  | cons s rest ih =>
    simp only [GenerateFilesLoop, List.map_cons, writeAll, Pass.job,
      BaseStruct.generateStruct, imports_code_eq, generateHeader_eq, newLine_newLine, ih]
    simp only [newLine, String.append_assoc, String.empty_append]

theorem GenerateTestFilesLoop_eq {σ ε : Type} (caseTable : Char → Char)
    (writeFile : String → String → σ → Except ε Unit × σ) (p : Package)
    (l : List BaseStruct) (w : σ) :
    GenerateTestFilesLoop caseTable writeFile p l w
      = writeAll writeFile (l.map (Pass.testFiles.job caseTable p)) w := by
  induction l generalizing w with
  | nil => rfl
  | cons s rest ih =>
    simp only [GenerateTestFilesLoop, List.map_cons, writeAll, Pass.job,
      BaseStruct.generateTests, BaseStruct.generateTestValueHelpers, imports_code_eq,
      generateHeader_eq, newLine_newLine, ih]
    cases usedByOtherDataTypes p.name <;>
      simp [String.append_assoc]

theorem GenerateInternalFilesLoop_eq {σ ε : Type} (caseTable : Char → Char)
    (writeFile : String → String → σ → Except ε Unit × σ) (p : Package)
    (l : List BaseStruct) (w : σ) :
    GenerateInternalFilesLoop caseTable writeFile p l w
      = writeAll writeFile (l.map (Pass.internalFiles.job caseTable p)) w := by
  induction l generalizing w with
  | nil => rfl
  | cons s rest ih =>
    simp only [GenerateInternalFilesLoop, List.map_cons, writeAll, Pass.job,
      BaseStruct.generateInternal, BaseStruct.generateTestValueHelpers, imports_code_eq,
      generateHeader_eq, newLine_newLine, ih]
    simp only [newLine, String.append_assoc, String.empty_append]

/-- Every pass is the sequence of its writes, made one after the other up to
the first failure. -/
theorem Pass.run_eq_writeAll {σ ε : Type} (pass : Pass) (caseTable : Char → Char)
    (writeFile : String → String → σ → Except ε Unit × σ) (p : Package) (w : σ) :
    pass.run caseTable writeFile p w = writeAll writeFile (pass.jobs caseTable p) w := by
  cases pass
  · simp only [Pass.run, GenerateFiles, GenerateFilesLoop_eq, Pass.jobs]
  · simp only [Pass.run, GenerateTestFiles, GenerateTestFilesLoop_eq, Pass.jobs]
  · simp only [Pass.run, GenerateInternalFiles, GenerateInternalFilesLoop_eq, Pass.jobs]
    cases usedByOtherDataTypes p.name <;> simp [writeAll]

/-! ## Lemmas on sequences of writes -/

section WriteAll

variable {σ ε : Type} (writeFile : String → String → σ → Except ε Unit × σ)

theorem except_unit_cases (r : Except ε Unit) : r = .ok () ∨ ∃ e, r = .error e := by
  cases r with
  | error e => exact Or.inr ⟨e, rfl⟩
  | ok u => exact Or.inl rfl

theorem writeAll_cons_ok (j : String × String) (rest : List (String × String)) (w : σ)
    (h : (writeFile j.1 j.2 w).1 = .ok ()) :
    writeAll writeFile (j :: rest) w = writeAll writeFile rest (writeFile j.1 j.2 w).2 := by
  rcases hw : writeFile j.1 j.2 w with ⟨r, w1⟩
  rw [hw] at h
  simp only at h
  subst h
  simp only [writeAll, hw]

theorem writeAll_cons_error (j : String × String) (rest : List (String × String)) (w : σ)
    (e : ε) (h : (writeFile j.1 j.2 w).1 = .error e) :
    writeAll writeFile (j :: rest) w = (.error e, (writeFile j.1 j.2 w).2) := by
  rcases hw : writeFile j.1 j.2 w with ⟨r, w1⟩
  rw [hw] at h
  simp only at h
  subst h
  simp only [writeAll, hw]

theorem succeedsAt_zero (j : String × String) (rest : List (String × String)) (w : σ) :
    succeedsAt writeFile (j :: rest) w 0 ↔ (writeFile j.1 j.2 w).1 = .ok () := by
  simp [succeedsAt, worldAfter]

theorem succeedsAt_succ (j : String × String) (rest : List (String × String)) (w : σ)
    (i : Nat) :
    succeedsAt writeFile (j :: rest) w (i + 1)
      ↔ succeedsAt writeFile rest (writeFile j.1 j.2 w).2 i := by
  simp [succeedsAt, worldAfter]

theorem failsAt_zero (j : String × String) (rest : List (String × String)) (w : σ) (e : ε) :
    failsAt writeFile (j :: rest) w 0 e ↔ (writeFile j.1 j.2 w).1 = .error e := by
  simp [failsAt, worldAfter]

theorem failsAt_succ (j : String × String) (rest : List (String × String)) (w : σ)
    (i : Nat) (e : ε) :
    failsAt writeFile (j :: rest) w (i + 1) e
      ↔ failsAt writeFile rest (writeFile j.1 j.2 w).2 i e := by
  simp [failsAt, worldAfter]

theorem traced_fst (path data : String) (w : σ) (log : List (String × String)) :
    (traced writeFile path data (w, log)).1 = (writeFile path data w).1 := rfl

theorem traced_snd (path data : String) (w : σ) (log : List (String × String)) :
    (traced writeFile path data (w, log)).2
      = ((writeFile path data w).2, log ++ [(path, data)]) := rfl

/-- A traced run returns what the plain run returns and leaves the underlying
world as the plain run leaves it. -/
theorem writeAll_traced (jobs : List (String × String)) (w : σ)
    (log : List (String × String)) :
    (writeAll (traced writeFile) jobs (w, log)).1 = (writeAll writeFile jobs w).1
      ∧ (writeAll (traced writeFile) jobs (w, log)).2.1 = (writeAll writeFile jobs w).2 := by
  induction jobs generalizing w log with
  | nil => exact ⟨rfl, rfl⟩
  | cons j rest ih =>
    rcases except_unit_cases (writeFile j.1 j.2 w).1 with h | ⟨e, h⟩
    · rw [writeAll_cons_ok writeFile j rest w h,
        writeAll_cons_ok (traced writeFile) j rest (w, log) (by rw [traced_fst]; exact h),
        traced_snd]
      exact ih _ _
    · rw [writeAll_cons_error writeFile j rest w e h,
        writeAll_cons_error (traced writeFile) j rest (w, log) e (by rw [traced_fst]; exact h),
        traced_snd]
      exact ⟨rfl, rfl⟩

/-- The calls a run makes are an initial segment of its writes, in order. -/
theorem writeAll_log_take (jobs : List (String × String)) (w : σ)
    (log : List (String × String)) :
    ∃ k, k ≤ jobs.length ∧
      (writeAll (traced writeFile) jobs (w, log)).2.2 = log ++ jobs.take k := by
  induction jobs generalizing w log with
  | nil => exact ⟨0, Nat.le_refl _, by simp [writeAll]⟩
  | cons j rest ih =>
    rcases except_unit_cases (writeFile j.1 j.2 w).1 with h | ⟨e, h⟩
    · rw [writeAll_cons_ok (traced writeFile) j rest (w, log) (by rw [traced_fst]; exact h),
        traced_snd]
      obtain ⟨k, hk, hlog⟩ := ih (writeFile j.1 j.2 w).2 (log ++ [(j.1, j.2)])
      exact ⟨k + 1, by simpa using hk, by rw [hlog]; simp⟩
    · rw [writeAll_cons_error (traced writeFile) j rest (w, log) e
        (by rw [traced_fst]; exact h), traced_snd]
      exact ⟨1, by simp, by simp⟩

/-- When the writes before index `i` succeed, the first `i + 1` writes are all
made. -/
theorem writeAll_log_of_succeeds (jobs : List (String × String)) (w : σ)
    (log : List (String × String)) (i : Nat) (hi : i < jobs.length)
    (hok : ∀ j, j < i → succeedsAt writeFile jobs w j) :
    ∃ k, i < k ∧ (writeAll (traced writeFile) jobs (w, log)).2.2 = log ++ jobs.take k := by
  induction jobs generalizing w log i with
  | nil => simp at hi
  | cons j rest ih =>
    rcases except_unit_cases (writeFile j.1 j.2 w).1 with h | ⟨e, h⟩
    · rw [writeAll_cons_ok (traced writeFile) j rest (w, log) (by rw [traced_fst]; exact h),
        traced_snd]
      cases i with
      | zero =>
        obtain ⟨k, _, hlog⟩ :=
          writeAll_log_take writeFile rest (writeFile j.1 j.2 w).2 (log ++ [(j.1, j.2)])
        exact ⟨k + 1, Nat.succ_pos k, by rw [hlog]; simp⟩
      | succ i =>
        obtain ⟨k, hk, hlog⟩ := ih (writeFile j.1 j.2 w).2 (log ++ [(j.1, j.2)]) i
          (by simpa using hi)
          (fun m hm => (succeedsAt_succ writeFile j rest w m).1 (hok (m + 1) (by omega)))
        exact ⟨k + 1, by omega, by rw [hlog]; simp⟩
    · cases i with
      | zero =>
        rw [writeAll_cons_error (traced writeFile) j rest (w, log) e
          (by rw [traced_fst]; exact h), traced_snd]
        exact ⟨1, by omega, by simp⟩
      | succ i =>
        have h0 := (succeedsAt_zero writeFile j rest w).1 (hok 0 (by omega))
        rw [h0] at h
        cases h

/-- When the write at index `i` is the first to fail, the run returns its
error, leaves the world as that write left it, and has made exactly the first
`i + 1` writes. -/
theorem writeAll_first_failure (jobs : List (String × String)) (w : σ)
    (log : List (String × String)) (i : Nat) (e : ε) (j : String × String)
    (hj : jobs[i]? = some j)
    (hok : ∀ m, m < i → succeedsAt writeFile jobs w m)
    (hfail : failsAt writeFile jobs w i e) :
    writeAll writeFile jobs w
        = (.error e, (writeFile j.1 j.2 (worldAfter writeFile (jobs.take i) w)).2)
      ∧ (writeAll (traced writeFile) jobs (w, log)).2.2 = log ++ jobs.take (i + 1) := by
  induction jobs generalizing w log i with
  | nil => simp at hj
  | cons j0 rest ih =>
    cases i with
    | zero =>
      have h0 := (failsAt_zero writeFile j0 rest w e).1 hfail
      simp only [List.getElem?_cons_zero, Option.some.injEq] at hj
      subst hj
      rw [writeAll_cons_error writeFile j0 rest w e h0,
        writeAll_cons_error (traced writeFile) j0 rest (w, log) e
          (by rw [traced_fst]; exact h0), traced_snd]
      simp [worldAfter]
    | succ i =>
      have h0 := (succeedsAt_zero writeFile j0 rest w).1 (hok 0 (by omega))
      rw [writeAll_cons_ok writeFile j0 rest w h0,
        writeAll_cons_ok (traced writeFile) j0 rest (w, log)
          (by rw [traced_fst]; exact h0), traced_snd]
      obtain ⟨h1, h2⟩ := ih (writeFile j0.1 j0.2 w).2 (log ++ [(j0.1, j0.2)]) i
        (by simpa using hj)
        (fun m hm => (succeedsAt_succ writeFile j0 rest w m).1 (hok (m + 1) (by omega)))
        ((failsAt_succ writeFile j0 rest w i e).1 hfail)
      refine ⟨?_, ?_⟩
      · rw [h1]; simp [worldAfter]
      · rw [h2]; simp

/-- A run succeeds exactly when every one of its writes succeeds, and then it
leaves the world all the writes produce. -/
theorem writeAll_ok_iff (jobs : List (String × String)) (w : σ) :
    ((writeAll writeFile jobs w).1 = .ok ()
        ↔ ∀ i, i < jobs.length → succeedsAt writeFile jobs w i)
      ∧ ((∀ i, i < jobs.length → succeedsAt writeFile jobs w i) →
          writeAll writeFile jobs w = (.ok (), worldAfter writeFile jobs w)) := by
  induction jobs generalizing w with
  | nil => simp [writeAll, worldAfter]
  | cons j rest ih =>
    rcases except_unit_cases (writeFile j.1 j.2 w).1 with h | ⟨e, h⟩
    · rw [writeAll_cons_ok writeFile j rest w h]
      have key : (∀ i, i < (j :: rest).length → succeedsAt writeFile (j :: rest) w i)
          ↔ ∀ i, i < rest.length → succeedsAt writeFile rest (writeFile j.1 j.2 w).2 i := by
        constructor
        · intro hall i hi
          exact (succeedsAt_succ writeFile j rest w i).1 (hall (i + 1) (by simpa using hi))
        · intro hall i hi
          cases i with
          | zero => exact (succeedsAt_zero writeFile j rest w).2 h
          | succ i =>
            exact (succeedsAt_succ writeFile j rest w i).2 (hall i (by simpa using hi))
      rw [key]
      refine ⟨(ih _).1, fun hall => ?_⟩
      rw [(ih _).2 hall]
      simp [worldAfter]
    · rw [writeAll_cons_error writeFile j rest w e h]
      have hno : ¬ ∀ i, i < (j :: rest).length → succeedsAt writeFile (j :: rest) w i := by
        intro hall
        have h0 := (succeedsAt_zero writeFile j rest w).1 (hall 0 (by simp))
        rw [h0] at h
        cases h
      constructor
      · constructor
        · intro hc; cases hc
        · intro hall; exact absurd hall hno
      · intro hall; exact absurd hall hno

end WriteAll

/-! ## Runs of a pass -/

section Runs

variable {σ ε : Type}

theorem usedByOtherDataTypes_eq_true (name : String) :
    usedByOtherDataTypes name = true ↔ name = "pcommon" := by
  simp [usedByOtherDataTypes]

theorem usedByOtherDataTypes_eq_false (name : String) :
    usedByOtherDataTypes name = false ↔ name ≠ "pcommon" := by
  simp [usedByOtherDataTypes]

/-- The calls a pass makes when the writes before index `i` succeed include
the write at index `i`. -/
theorem Pass.log_getElem (pass : Pass) (caseTable : Char → Char)
    (writeFile : String → String → σ → Except ε Unit × σ) (p : Package) (w : σ)
    (i : Nat) (j : String × String) (hj : (pass.jobs caseTable p)[i]? = some j)
    (hok : succeedsBefore writeFile (pass.jobs caseTable p) w i) :
    (pass.run caseTable (traced writeFile) p (w, [])).2.2[i]? = some j := by
  have hi : i < (pass.jobs caseTable p).length := by
    rcases Nat.lt_or_ge i (pass.jobs caseTable p).length with h | h
    · exact h
    · rw [List.getElem?_eq_none h] at hj
      cases hj
  obtain ⟨k, hk, hlog⟩ :=
    writeAll_log_of_succeeds writeFile (pass.jobs caseTable p) w [] i hi hok
  rw [Pass.run_eq_writeAll, hlog, List.nil_append, List.getElem?_take_of_lt hk]
  exact hj

/-- With a `writeFile` that never fails a pass makes all its writes. -/
theorem Pass.log_of_never_fails (pass : Pass) (caseTable : Char → Char)
    (writeFile : String → String → σ → Except ε Unit × σ)
    (hnever : ∀ path data w, (writeFile path data w).1 = .ok ()) (p : Package) (w : σ) :
    pass.run caseTable writeFile p w
        = (.ok (), worldAfter writeFile (pass.jobs caseTable p) w)
      ∧ (pass.run caseTable (traced writeFile) p (w, [])).2.2 = pass.jobs caseTable p := by
  have hall : ∀ i, i < (pass.jobs caseTable p).length →
      succeedsAt writeFile (pass.jobs caseTable p) w i :=
    fun i _ j _ => hnever _ _ _
  refine ⟨?_, ?_⟩
  · rw [Pass.run_eq_writeAll]
    exact (writeAll_ok_iff writeFile _ w).2 hall
  · rw [Pass.run_eq_writeAll]
    obtain ⟨k, hk, hlog⟩ := writeAll_log_take writeFile (pass.jobs caseTable p) w []
    rcases Nat.lt_or_ge k (pass.jobs caseTable p).length with h | h
    · obtain ⟨k2, hk2, hlog2⟩ :=
        writeAll_log_of_succeeds writeFile (pass.jobs caseTable p) w [] k h
          (fun m _ => hall m (by omega))
      rw [hlog] at hlog2
      have hlen := congrArg List.length hlog2
      simp only [List.nil_append, List.length_take] at hlen
      omega
    · rw [hlog, List.nil_append, List.take_of_length_le h]

end Runs

/-! ## The claims -/

/-- C1: on a package whose name is not `pcommon`, whatever its path, import
lists and structs and however `writeFile` behaves, `GenerateInternalFiles`
returns success, leaves the world exactly as it found it, and calls
`writeFile` not once. -/
theorem GenerateInternalFiles_unflagged_noop {σ ε : Type} (caseTable : Char → Char)
    (writeFile : String → String → σ → Except ε Unit × σ) (p : Package) (w : σ)
    (hname : p.name ≠ "pcommon") :
    GenerateInternalFiles caseTable writeFile p w = (.ok (), w)
      ∧ (GenerateInternalFiles caseTable (traced writeFile) p (w, [])).2.2 = [] := by
  have h := (usedByOtherDataTypes_eq_false p.name).2 hname
  simp [GenerateInternalFiles, h]

/-- An instance on the package `demo`, on the empty filesystem. -/
theorem GenerateInternalFiles_unflagged_noop_witness :
    demo.name ≠ "pcommon"
      ∧ GenerateInternalFiles id (FS.writeFileUnless []) demo FS.empty = (.ok (), FS.empty)
      ∧ (GenerateInternalFiles id (traced (FS.writeFileUnless [])) demo (FS.empty, [])).2.2
          = [] :=
  ⟨by decide,
    GenerateInternalFiles_unflagged_noop id (FS.writeFileUnless []) demo FS.empty (by decide)⟩

/-- C2: when the writes for the structs before index `i` succeed,
`GenerateFiles` calls `writeFile` for the struct `s` at index `i` with the path
`filepath.Join("pdata", p.path, "generated_" + lower(s.name) + ".go")` and with
exactly the header block for `p.name`, the import block of `p.imports`, the
two-newline separator, the output of `generateStruct` and one newline. -/
theorem GenerateFiles_writes_struct {σ ε : Type} (caseTable : Char → Char)
    (writeFile : String → String → σ → Except ε Unit × σ) (p : Package) (w : σ)
    (i : Nat) (s : BaseStruct) (hs : p.structs[i]? = some s)
    (hok : succeedsBefore writeFile (Pass.files.jobs caseTable p) w i) :
    (GenerateFiles caseTable (traced writeFile) p (w, [])).2.2[i]?
      = some
        (filepathJoin ["pdata", p.path, "generated_" ++ toLower caseTable s.getName ++ ".go"],
          header ++ "\n\n" ++ "package " ++ p.name ++ "\n\n" ++ importBlock p.imports
            ++ "\n\n" ++ s.structText ++ "\n") := by
  have hj : (Pass.files.jobs caseTable p)[i]? = some (Pass.files.job caseTable p s) := by
    simp [Pass.jobs, List.getElem?_map, hs]
  exact Pass.log_getElem Pass.files caseTable writeFile p w i _ hj hok

/-- An instance: the second struct of the package `demo`, on a filesystem whose
writes succeed. -/
theorem GenerateFiles_writes_struct_witness :
    demo.structs[1]? = some gadget
      ∧ succeedsBefore FS.writeFile (Pass.files.jobs id demo) FS.empty 1
      ∧ (GenerateFiles id (traced FS.writeFile) demo (FS.empty, [])).2.2[1]?
        = some
          (filepathJoin ["pdata", demo.path, "generated_" ++ toLower id gadget.getName ++ ".go"],
            header ++ "\n\n" ++ "package " ++ demo.name ++ "\n\n" ++ importBlock demo.imports
              ++ "\n\n" ++ gadget.structText ++ "\n") :=
  ⟨rfl, fun _ _ _ _ => rfl,
    GenerateFiles_writes_struct id FS.writeFile demo FS.empty 1 gadget rfl
      (fun _ _ _ _ => rfl)⟩

/-- C3: when the writes for the structs before index `i` succeed,
`GenerateTestFiles` calls `writeFile` for the struct `s` at index `i` with the
path `filepath.Join("pdata", p.path, "generated_" + lower(s.name) + "_test.go")`
and with exactly the header block for `p.name`, the import block of
`p.testImports`, the two-newline separator and the output of `generateTests`,
followed, if and only if `p.name` is not `pcommon`, by the two-newline
separator and the output of `generateTestValueHelpers`; no newline ends the
file. -/
theorem GenerateTestFiles_writes_struct {σ ε : Type} (caseTable : Char → Char)
    (writeFile : String → String → σ → Except ε Unit × σ) (p : Package) (w : σ)
    (i : Nat) (s : BaseStruct) (hs : p.structs[i]? = some s)
    (hok : succeedsBefore writeFile (Pass.testFiles.jobs caseTable p) w i) :
    (GenerateTestFiles caseTable (traced writeFile) p (w, [])).2.2[i]?
      = some
        (filepathJoin
            ["pdata", p.path, "generated_" ++ toLower caseTable s.getName ++ "_test.go"],
          if p.name = "pcommon" then
            header ++ "\n\n" ++ "package " ++ p.name ++ "\n\n" ++ importBlock p.testImports
              ++ "\n\n" ++ s.testsText
          else
            header ++ "\n\n" ++ "package " ++ p.name ++ "\n\n" ++ importBlock p.testImports
              ++ "\n\n" ++ s.testsText ++ "\n\n" ++ s.testValueHelpersText) := by
  have hj : (Pass.testFiles.jobs caseTable p)[i]? = some (Pass.testFiles.job caseTable p s) := by
    simp [Pass.jobs, List.getElem?_map, hs]
  have h := Pass.log_getElem Pass.testFiles caseTable writeFile p w i _ hj hok
  rw [show (GenerateTestFiles caseTable (traced writeFile) p (w, []))
    = Pass.testFiles.run caseTable (traced writeFile) p (w, []) from rfl, h]
  by_cases hn : p.name = "pcommon"
  · simp [Pass.job, hn, usedByOtherDataTypes]
  · simp [Pass.job, hn, usedByOtherDataTypes, String.append_assoc]

/-- An instance: the second struct of the package `demo`, on a filesystem whose
writes succeed. -/
theorem GenerateTestFiles_writes_struct_witness :
    demo.structs[1]? = some gadget
      ∧ succeedsBefore FS.writeFile (Pass.testFiles.jobs id demo) FS.empty 1
      ∧ (GenerateTestFiles id (traced FS.writeFile) demo (FS.empty, [])).2.2[1]?
        = some
          (filepathJoin
              ["pdata", demo.path, "generated_" ++ toLower id gadget.getName ++ "_test.go"],
            if demo.name = "pcommon" then
              header ++ "\n\n" ++ "package " ++ demo.name ++ "\n\n"
                ++ importBlock demo.testImports ++ "\n\n" ++ gadget.testsText
            else
              header ++ "\n\n" ++ "package " ++ demo.name ++ "\n\n"
                ++ importBlock demo.testImports ++ "\n\n" ++ gadget.testsText ++ "\n\n"
                ++ gadget.testValueHelpersText) :=
  ⟨rfl, fun _ _ _ _ => rfl,
    GenerateTestFiles_writes_struct id FS.writeFile demo FS.empty 1 gadget rfl
      (fun _ _ _ _ => rfl)⟩

theorem string_append_left_cancel (a b c : String) (h : a ++ b = a ++ c) : b = c := by
  have hd := congrArg String.data h
  simp only [String.data_append] at hd
  exact String.ext (List.append_cancel_left hd)

/-- C4 (as stated, refuted): for the package `demoCommon`, named `pcommon`, the
first file `GenerateInternalFiles` writes is not the header for `internal`,
the import block, the output of `generateInternal`, one two-newline separator
and the output of `generateTestValueHelpers`. -/
theorem GenerateInternalFiles_content_counterexample :
    (GenerateInternalFiles id (traced FS.writeFile) demoCommon (FS.empty, [])).2.2[0]?
      ≠ some
        (filepathJoin ["pdata", "internal",
            "generated_wrapper_" ++ toLower id widget.getName ++ ".go"],
          header ++ "\n\n" ++ "package " ++ "internal" ++ "\n\n" ++ importBlock demoCommon.imports
            ++ widget.internalText ++ "\n\n" ++ widget.testValueHelpersText) := by
  have h := Pass.log_getElem Pass.internalFiles id FS.writeFile demoCommon FS.empty 0
    (Pass.internalFiles.job id demoCommon widget) rfl (fun _ hj => absurd hj (Nat.not_lt_zero _))
  rw [show (GenerateInternalFiles id (traced FS.writeFile) demoCommon (FS.empty, []))
    = Pass.internalFiles.run id (traced FS.writeFile) demoCommon (FS.empty, []) from rfl, h]
  intro hc
  have hc2 := congrArg Prod.snd (Option.some.inj hc)
  simp only [Pass.job, String.append_assoc] at hc2
  have h1 := string_append_left_cancel _ _ _ hc2
  have h2 := string_append_left_cancel _ _ _ h1
  have h3 := string_append_left_cancel _ _ _ h2
  have h4 := string_append_left_cancel _ _ _ h3
  have h5 := string_append_left_cancel _ _ _ h4
  have h6 := string_append_left_cancel _ _ _ h5
  have h7 := string_append_left_cancel _ _ _ h6
  revert h7
  decide

/-- C4 (amended): when the package is named `pcommon` and the writes for the
structs before index `i` succeed, `GenerateInternalFiles` calls `writeFile` for
the struct `s` at index `i` with the path
`filepath.Join("pdata", "internal", "generated_wrapper_" + lower(s.name) + ".go")`,
in which `p.path` does not occur, and with exactly the header for the package
name `internal`, the import block of `p.imports`, the output of
`generateInternal`, three newlines, the output of `generateTestValueHelpers`
and one newline. -/
theorem GenerateInternalFiles_writes_struct {σ ε : Type} (caseTable : Char → Char)
    (writeFile : String → String → σ → Except ε Unit × σ) (p : Package) (w : σ)
    (hname : p.name = "pcommon")
    (i : Nat) (s : BaseStruct) (hs : p.structs[i]? = some s)
    (hok : succeedsBefore writeFile (Pass.internalFiles.jobs caseTable p) w i) :
    (GenerateInternalFiles caseTable (traced writeFile) p (w, [])).2.2[i]?
      = some
        (filepathJoin ["pdata", "internal",
            "generated_wrapper_" ++ toLower caseTable s.getName ++ ".go"],
          header ++ "\n\n" ++ "package " ++ "internal" ++ "\n\n" ++ importBlock p.imports
            ++ s.internalText ++ "\n" ++ "\n\n" ++ s.testValueHelpersText ++ "\n") := by
  have hj : (Pass.internalFiles.jobs caseTable p)[i]?
      = some (Pass.internalFiles.job caseTable p s) := by
    simp [Pass.jobs, List.getElem?_map, hs, (usedByOtherDataTypes_eq_true p.name).2 hname]
  exact Pass.log_getElem Pass.internalFiles caseTable writeFile p w i _ hj hok

/-- An instance: the second struct of the package `demoCommon`, on a filesystem
whose writes succeed. -/
theorem GenerateInternalFiles_writes_struct_witness :
    demoCommon.name = "pcommon"
      ∧ demoCommon.structs[1]? = some gadget
      ∧ succeedsBefore FS.writeFile (Pass.internalFiles.jobs id demoCommon) FS.empty 1
      ∧ (GenerateInternalFiles id (traced FS.writeFile) demoCommon (FS.empty, [])).2.2[1]?
        = some
          (filepathJoin ["pdata", "internal",
              "generated_wrapper_" ++ toLower id gadget.getName ++ ".go"],
            header ++ "\n\n" ++ "package " ++ "internal" ++ "\n\n"
              ++ importBlock demoCommon.imports
              ++ gadget.internalText ++ "\n" ++ "\n\n" ++ gadget.testValueHelpersText ++ "\n") :=
  ⟨rfl, rfl, fun _ _ _ _ => rfl,
    GenerateInternalFiles_writes_struct id FS.writeFile demoCommon FS.empty rfl 1 gadget rfl
      (fun _ _ _ _ => rfl)⟩

/-- Every write of a pass is the write for one of the structs of the
package. -/
theorem Pass.mem_jobs (pass : Pass) (caseTable : Char → Char) (p : Package)
    (j : String × String) (hj : j ∈ pass.jobs caseTable p) :
    ∃ s, s ∈ p.structs ∧ j = pass.job caseTable p s := by
  cases pass
  · simp only [Pass.jobs, List.mem_map] at hj
    obtain ⟨s, hs, rfl⟩ := hj
    exact ⟨s, hs, rfl⟩
  · simp only [Pass.jobs, List.mem_map] at hj
    obtain ⟨s, hs, rfl⟩ := hj
    exact ⟨s, hs, rfl⟩
  · simp only [Pass.jobs] at hj
    split at hj
    · simp only [List.mem_map] at hj
      obtain ⟨s, hs, rfl⟩ := hj
      exact ⟨s, hs, rfl⟩
    · simp at hj

/-- C5: every file contents any of the three passes hands to `writeFile`, for
every package and however `writeFile` behaves, starts with the constant
`header`, a blank line, the line `package n` and a blank line, where `n` is the
name of the package for `GenerateFiles` and `GenerateTestFiles` and the literal
`internal` for `GenerateInternalFiles`; and `header` is a license text followed
by the disclaimer line that names `pdata/internal/cmd/pdatagen/main.go`. -/
theorem Pass.contents_start_with_header {σ ε : Type} (pass : Pass) (caseTable : Char → Char)
    (writeFile : String → String → σ → Except ε Unit × σ) (p : Package) (w : σ)
    (i : Nat) (entry : String × String)
    (hentry : (pass.run caseTable (traced writeFile) p (w, [])).2.2[i]? = some entry) :
    (∃ rest, entry.2
        = header ++ "\n\n" ++ "package " ++ (if pass = Pass.internalFiles then "internal" else p.name)
          ++ "\n\n" ++ rest)
      ∧ ∃ license tail, header
        = license
          ++ "// Code generated by \"pdata/internal/cmd/pdatagen/main.go\". DO NOT EDIT.\n"
          ++ tail := by
  refine ⟨?_, ?_⟩
  · rw [Pass.run_eq_writeAll] at hentry
    obtain ⟨k, _, hlog⟩ := writeAll_log_take writeFile (pass.jobs caseTable p) w []
    rw [hlog, List.nil_append] at hentry
    have hmem : entry ∈ pass.jobs caseTable p :=
      List.mem_of_mem_take (List.getElem?_mem hentry)
    obtain ⟨s, _, rfl⟩ := Pass.mem_jobs pass caseTable p entry hmem
    cases pass
    · exact ⟨importBlock p.imports ++ "\n\n" ++ s.structText ++ "\n", by
        simp [Pass.job, String.append_assoc]⟩
    · exact ⟨importBlock p.testImports ++ "\n\n" ++ s.testsText
          ++ (if usedByOtherDataTypes p.name then "" else "\n\n" ++ s.testValueHelpersText), by
        simp [Pass.job, String.append_assoc]⟩
    · exact ⟨importBlock p.imports ++ s.internalText ++ "\n" ++ "\n\n"
          ++ s.testValueHelpersText ++ "\n", by
        simp [Pass.job, String.append_assoc]⟩
  · exact ⟨_, _, rfl⟩

/-- An instance: the second file `GenerateTestFiles` writes for the package
`demo`. -/
theorem Pass.contents_start_with_header_witness :
    (Pass.testFiles.run id (traced FS.writeFile) demo (FS.empty, [])).2.2[1]?
        = some (Pass.testFiles.job id demo gadget)
      ∧ (∃ rest, (Pass.testFiles.job id demo gadget).2
          = header ++ "\n\n" ++ "package "
            ++ (if Pass.testFiles = Pass.internalFiles then "internal" else demo.name)
            ++ "\n\n" ++ rest)
      ∧ ∃ license tail, header
        = license
          ++ "// Code generated by \"pdata/internal/cmd/pdatagen/main.go\". DO NOT EDIT.\n"
          ++ tail :=
  have h : (Pass.testFiles.run id (traced FS.writeFile) demo (FS.empty, [])).2.2[1]?
      = some (Pass.testFiles.job id demo gadget) :=
    Pass.log_getElem Pass.testFiles id FS.writeFile demo FS.empty 1 _ rfl (fun _ _ _ _ => rfl)
  ⟨h, Pass.contents_start_with_header Pass.testFiles id FS.writeFile demo FS.empty 1 _ h⟩

/-- C6: for each of the three passes and every package, with `jobs` the writes
of the pass in the order of `p.structs`: the calls of `writeFile` the pass
makes are an initial segment of `jobs`; if the write at index `i` is the first
one to fail, with error `e`, the pass returns exactly `e`, the world is the one
the writes `0 .. i-1` produced as the failing call left it, and no write after
index `i` is attempted; and the pass returns success if and only if no write it
attempts fails. -/
theorem Pass.first_failure_aborts {σ ε : Type} (pass : Pass) (caseTable : Char → Char)
    (writeFile : String → String → σ → Except ε Unit × σ) (p : Package) (w : σ) :
    (∃ k, k ≤ (pass.jobs caseTable p).length
        ∧ (pass.run caseTable (traced writeFile) p (w, [])).2.2
          = (pass.jobs caseTable p).take k)
      ∧ (∀ i e j, (pass.jobs caseTable p)[i]? = some j →
          succeedsBefore writeFile (pass.jobs caseTable p) w i →
          failsAt writeFile (pass.jobs caseTable p) w i e →
          pass.run caseTable writeFile p w
              = (.error e,
                (writeFile j.1 j.2
                  (worldAfter writeFile ((pass.jobs caseTable p).take i) w)).2)
            ∧ (pass.run caseTable (traced writeFile) p (w, [])).2.2
              = (pass.jobs caseTable p).take (i + 1))
      ∧ ((pass.run caseTable writeFile p w).1 = .ok ()
          ↔ ∀ i, i < (pass.jobs caseTable p).length →
            succeedsAt writeFile (pass.jobs caseTable p) w i) := by
  refine ⟨?_, ?_, ?_⟩
  · obtain ⟨k, hk, hlog⟩ := writeAll_log_take writeFile (pass.jobs caseTable p) w []
    exact ⟨k, hk, by rw [Pass.run_eq_writeAll, hlog, List.nil_append]⟩
  · intro i e j hj hok hfail
    have h := writeAll_first_failure writeFile (pass.jobs caseTable p) w [] i e j hj hok hfail
    rw [Pass.run_eq_writeAll, Pass.run_eq_writeAll]
    exact ⟨h.1, by rw [h.2, List.nil_append]⟩
  · rw [Pass.run_eq_writeAll]
    exact (writeAll_ok_iff writeFile (pass.jobs caseTable p) w).1

/-- An instance: `GenerateFiles` on the package `demo`, of three structs, on a
filesystem that refuses the path of the second: the pass returns that error
after two calls. -/
theorem Pass.first_failure_aborts_witness :
    (Pass.files.jobs id demo)[1]? = some (Pass.files.job id demo gadget)
      ∧ succeedsBefore (FS.writeFileUnless ["pdata/demo/generated_gadget.go"])
          (Pass.files.jobs id demo) FS.empty 1
      ∧ failsAt (FS.writeFileUnless ["pdata/demo/generated_gadget.go"])
          (Pass.files.jobs id demo) FS.empty 1
          "open pdata/demo/generated_gadget.go: permission denied"
      ∧ Pass.files.run id (FS.writeFileUnless ["pdata/demo/generated_gadget.go"]) demo FS.empty
          = (.error "open pdata/demo/generated_gadget.go: permission denied",
            (FS.writeFileUnless ["pdata/demo/generated_gadget.go"]
              (Pass.files.job id demo gadget).1 (Pass.files.job id demo gadget).2
              (worldAfter (FS.writeFileUnless ["pdata/demo/generated_gadget.go"])
                ((Pass.files.jobs id demo).take 1) FS.empty)).2)
      ∧ (Pass.files.run id (traced (FS.writeFileUnless ["pdata/demo/generated_gadget.go"]))
            demo (FS.empty, [])).2.2
          = (Pass.files.jobs id demo).take (1 + 1) :=
  have hok : succeedsBefore (FS.writeFileUnless ["pdata/demo/generated_gadget.go"])
      (Pass.files.jobs id demo) FS.empty 1 := by
    intro j hj jb hjb
    have hj0 : j = 0 := by omega
    subst hj0
    have hjb2 : jb = Pass.files.job id demo widget := (Option.some.inj hjb).symm
    subst hjb2
    have hp : (Pass.files.job id demo widget).1 ∉ ["pdata/demo/generated_gadget.go"] := by
      decide
    simp only [FS.writeFileUnless, hp, if_false, FS.writeFile]
  have hfail : failsAt (FS.writeFileUnless ["pdata/demo/generated_gadget.go"])
      (Pass.files.jobs id demo) FS.empty 1
      "open pdata/demo/generated_gadget.go: permission denied" := by
    refine ⟨Pass.files.job id demo gadget, rfl, ?_⟩
    have hp : (Pass.files.job id demo gadget).1 = "pdata/demo/generated_gadget.go" := by
      decide
    simp only [FS.writeFileUnless, hp, List.mem_singleton, if_true]
    exact congrArg Except.error (by decide)
  ⟨rfl, hok, hfail,
    (Pass.first_failure_aborts Pass.files id
      (FS.writeFileUnless ["pdata/demo/generated_gadget.go"]) demo FS.empty).2.1
      1 "open pdata/demo/generated_gadget.go: permission denied"
      (Pass.files.job id demo gadget) rfl hok hfail⟩

/-- The calls a pass makes are, index by index, its writes. -/
theorem Pass.jobs_of_log_getElem {σ ε : Type} (pass : Pass) (caseTable : Char → Char)
    (writeFile : String → String → σ → Except ε Unit × σ) (p : Package) (w : σ)
    (i : Nat) (entry : String × String)
    (hentry : (pass.run caseTable (traced writeFile) p (w, [])).2.2[i]? = some entry) :
    (pass.jobs caseTable p)[i]? = some entry := by
  rw [Pass.run_eq_writeAll] at hentry
  obtain ⟨k, _, hlog⟩ := writeAll_log_take writeFile (pass.jobs caseTable p) w []
  rw [hlog, List.nil_append] at hentry
  rcases Nat.lt_or_ge i k with h | h
  · rw [List.getElem?_take_of_lt h] at hentry
    exact hentry
  · rw [List.getElem?_eq_none (by simp; omega)] at hentry
    cases hentry

/-- The state a run of always-succeeding writes leaves, path by path: the data
of the last write to the path, or what was there before. -/
theorem worldAfter_FS (jobs : List (String × String)) (fs : FS) (q : String) :
    worldAfter FS.writeFile jobs fs q
      = ((jobs.reverse.find? (fun j => decide (q = j.1))).map Prod.snd <|> fs q) := by
  induction jobs generalizing fs with
  | nil => simp [worldAfter]
  | cons j rest ih =>
    have hstep : worldAfter FS.writeFile (j :: rest) fs
        = worldAfter FS.writeFile rest (FS.writeFile j.1 j.2 fs).2 := by
      simp [worldAfter]
    rw [hstep, ih, List.reverse_cons, List.find?_append]
    cases hf : rest.reverse.find? (fun j => decide (q = j.1)) with
    | some x => simp
    | none =>
      by_cases hq : q = j.1
      · simp [FS.writeFile, hq]
      · simp [FS.writeFile, hq]

theorem worldAfter_FS_idem (jobs : List (String × String)) (fs : FS) :
    worldAfter FS.writeFile jobs (worldAfter FS.writeFile jobs fs)
      = worldAfter FS.writeFile jobs fs := by
  funext q
  rw [worldAfter_FS jobs (worldAfter FS.writeFile jobs fs) q, worldAfter_FS jobs fs q]
  cases (jobs.reverse.find? (fun j => decide (q = j.1))).map Prod.snd <;> simp

/-- C7: each of the three passes is idempotent on a filesystem whose writes
all succeed: for every package and every initial state, the pass succeeds, a
second run returns the same result and leaves exactly the state the first run
left, and the second run makes the same writes, with the same contents, as the
first. -/
theorem Pass.idempotent (pass : Pass) (caseTable : Char → Char) (p : Package) (fs : FS) :
    (pass.run caseTable FS.writeFile p fs).1 = .ok ()
      ∧ pass.run caseTable FS.writeFile p (pass.run caseTable FS.writeFile p fs).2
        = pass.run caseTable FS.writeFile p fs
      ∧ (pass.run caseTable (traced FS.writeFile) p
            ((pass.run caseTable FS.writeFile p fs).2, [])).2.2
        = (pass.run caseTable (traced FS.writeFile) p (fs, [])).2.2 := by
  have hnever : ∀ (path data : String) (w : FS), (FS.writeFile path data w).1 = .ok () :=
    fun _ _ _ => rfl
  have h1 := Pass.log_of_never_fails pass caseTable FS.writeFile hnever p fs
  have h2 := Pass.log_of_never_fails pass caseTable FS.writeFile hnever p
    (pass.run caseTable FS.writeFile p fs).2
  refine ⟨by rw [h1.1], ?_, by rw [h2.2, h1.2]⟩
  rw [h2.1, h1.1, worldAfter_FS_idem]

theorem infix_of_eq_append (a h b c : String) (e : c = a ++ h ++ b) :
    h.data <:+: c.data := by
  subst e
  exact ⟨a.data, b.data, by simp [String.data_append]⟩

/-- C8 (as stated, refuted): the package `echoCommon` is named `pcommon`, and
the contents `GenerateTestFiles` writes for its struct `echo` contain the
output of `generateTestValueHelpers` of `echo` as a substring. -/
theorem GenerateTestFiles_helper_substring_counterexample :
    echoCommon.name = "pcommon"
      ∧ ∃ entry, (GenerateTestFiles id (traced FS.writeFile) echoCommon (FS.empty, [])).2.2[0]?
          = some entry
        ∧ echo.testValueHelpersText.data <:+: entry.2.data := by
  refine ⟨rfl, Pass.testFiles.job id echoCommon echo, ?_, ?_⟩
  · exact Pass.log_getElem Pass.testFiles id FS.writeFile echoCommon FS.empty 0 _ rfl
      (fun _ hj => absurd hj (Nat.not_lt_zero _))
  · have ht : echo.testsText
        = echo.testValueHelpersText ++ "\n\nfunc TestEcho(t *testing.T) {}" := by decide
    have hu : usedByOtherDataTypes echoCommon.name = true := by decide
    have hc : (Pass.testFiles.job id echoCommon echo).2
        = (header ++ "\n\n" ++ "package " ++ echoCommon.name ++ "\n\n"
            ++ importBlock echoCommon.testImports ++ "\n\n")
          ++ echo.testValueHelpersText ++ "\n\nfunc TestEcho(t *testing.T) {}" := by
      simp only [Pass.job, hu, if_true, ht, String.append_assoc, String.append_empty]
    exact infix_of_eq_append _ _ _ _ hc

/-- C8 (amended): for the struct `s` at index `i`, the contents
`GenerateTestFiles` writes are, for a package named `pcommon`, exactly the
header, the import block of `p.testImports`, the two-newline separator and the
output of `generateTests`, with the output of `generateTestValueHelpers` not
appended; and, for a package with any other name, those contents followed by
the two-newline separator and the output of `generateTestValueHelpers`, which
the contents therefore hold as a substring. -/
theorem GenerateTestFiles_helper_appended_iff {σ ε : Type} (caseTable : Char → Char)
    (writeFile : String → String → σ → Except ε Unit × σ) (p : Package) (w : σ)
    (i : Nat) (s : BaseStruct) (entry : String × String)
    (hs : p.structs[i]? = some s)
    (hentry : (GenerateTestFiles caseTable (traced writeFile) p (w, [])).2.2[i]?
      = some entry) :
    (p.name = "pcommon" →
        entry.2 = header ++ "\n\n" ++ "package " ++ p.name ++ "\n\n"
          ++ importBlock p.testImports ++ "\n\n" ++ s.testsText)
      ∧ (p.name ≠ "pcommon" →
        entry.2 = header ++ "\n\n" ++ "package " ++ p.name ++ "\n\n"
            ++ importBlock p.testImports ++ "\n\n" ++ s.testsText
            ++ "\n\n" ++ s.testValueHelpersText
          ∧ s.testValueHelpersText.data <:+: entry.2.data) := by
  have hj := Pass.jobs_of_log_getElem Pass.testFiles caseTable writeFile p w i entry hentry
  have he : entry = Pass.testFiles.job caseTable p s := by
    simp only [Pass.jobs, List.getElem?_map, hs, Option.map_some'] at hj
    exact (Option.some.inj hj).symm
  subst he
  refine ⟨fun hn => ?_, fun hn => ?_⟩
  · have hu := (usedByOtherDataTypes_eq_true p.name).2 hn
    simp only [Pass.job, hu, if_true, String.append_empty]
  · have hu := (usedByOtherDataTypes_eq_false p.name).2 hn
    have hc : (Pass.testFiles.job caseTable p s).2
        = header ++ "\n\n" ++ "package " ++ p.name ++ "\n\n"
            ++ importBlock p.testImports ++ "\n\n" ++ s.testsText
            ++ "\n\n" ++ s.testValueHelpersText := by
      simp only [Pass.job, hu, String.append_assoc]
      rfl
    refine ⟨hc, ?_⟩
    exact infix_of_eq_append
      (header ++ "\n\n" ++ "package " ++ p.name ++ "\n\n"
        ++ importBlock p.testImports ++ "\n\n" ++ s.testsText ++ "\n\n") _ "" _
      (by rw [hc]; simp only [String.append_empty])

/-- An instance: the second struct of the package `demo`, whose name is not
`pcommon`. -/
theorem GenerateTestFiles_helper_appended_iff_witness :
    demo.structs[1]? = some gadget
      ∧ (GenerateTestFiles id (traced FS.writeFile) demo (FS.empty, [])).2.2[1]?
        = some (Pass.testFiles.job id demo gadget)
      ∧ demo.name ≠ "pcommon"
      ∧ (Pass.testFiles.job id demo gadget).2
          = header ++ "\n\n" ++ "package " ++ demo.name ++ "\n\n"
            ++ importBlock demo.testImports ++ "\n\n" ++ gadget.testsText
            ++ "\n\n" ++ gadget.testValueHelpersText
      ∧ gadget.testValueHelpersText.data <:+: (Pass.testFiles.job id demo gadget).2.data :=
  have h : (GenerateTestFiles id (traced FS.writeFile) demo (FS.empty, [])).2.2[1]?
      = some (Pass.testFiles.job id demo gadget) :=
    Pass.log_getElem Pass.testFiles id FS.writeFile demo FS.empty 1 _ rfl (fun _ _ _ _ => rfl)
  ⟨rfl, h, by decide,
    (GenerateTestFiles_helper_appended_iff id FS.writeFile demo FS.empty 1 gadget _ rfl h).2
      (by decide)⟩

/-! ## Lemmas on paths -/

theorem splitElems_ne_nil (x : List Char) : splitElems x ≠ [] := by
  cases x with
  | nil => simp [splitElems]
  | cons c cs =>
    simp only [splitElems]
    split
    · simp
    · split <;> simp

theorem splitElems_cons_sep (cs : List Char) :
    splitElems ('/' :: cs) = [] :: splitElems cs := by
  simp [splitElems]

theorem splitElems_cons_of_ne (c : Char) (cs : List Char) (e : List Char)
    (es : List (List Char)) (hc : c ≠ '/') (h : splitElems cs = e :: es) :
    splitElems (c :: cs) = (c :: e) :: es := by
  simp [splitElems, hc, h]

/-- A path without separator is a single element. -/
theorem splitElems_of_no_sep (f : List Char) (hf : '/' ∉ f) : splitElems f = [f] := by
  induction f with
  | nil => rfl
  | cons c cs ih =>
    have hc : c ≠ '/' := fun h => hf (by simp [h])
    have hcs : '/' ∉ cs := fun h => hf (List.mem_cons_of_mem _ h)
    exact splitElems_cons_of_ne c cs cs [] hc (ih hcs)

/-- Splitting distributes over a separator. -/
theorem splitElems_append_sep (x y : List Char) :
    splitElems (x ++ '/' :: y) = splitElems x ++ splitElems y := by
  induction x with
  | nil => simp [splitElems]
  | cons c cs ih =>
    by_cases hc : c = '/'
    · subst hc
      simp only [List.cons_append, splitElems_cons_sep, ih]
    · obtain ⟨e, es, he⟩ := List.exists_cons_of_ne_nil (splitElems_ne_nil cs)
      rw [splitElems_cons_of_ne c cs e es hc he, List.cons_append,
        splitElems_cons_of_ne c (cs ++ '/' :: y) e (es ++ splitElems y) hc
          (by rw [ih, he, List.cons_append])]
      rfl

/-- Text without separator appended to a path extends its last element. -/
theorem splitElems_append_no_sep (x : List Char) :
    ∃ init last, splitElems x = init ++ [last]
      ∧ ∀ suf, '/' ∉ suf → splitElems (x ++ suf) = init ++ [last ++ suf] := by
  induction x with
  | nil =>
    exact ⟨[], [], rfl, fun suf hsuf => by simpa using splitElems_of_no_sep suf hsuf⟩
  | cons c cs ih =>
    obtain ⟨init, last, h1, h2⟩ := ih
    by_cases hc : c = '/'
    · subst hc
      refine ⟨[] :: init, last, by rw [splitElems_cons_sep, h1]; rfl, fun suf hsuf => ?_⟩
      rw [List.cons_append, splitElems_cons_sep, h2 suf hsuf]
      rfl
    · cases init with
      | nil =>
        refine ⟨[], c :: last, ?_, fun suf hsuf => ?_⟩
        · exact splitElems_cons_of_ne c cs last [] hc h1
        · exact splitElems_cons_of_ne c (cs ++ suf) (last ++ suf) [] hc (h2 suf hsuf)
      | cons e es =>
        refine ⟨(c :: e) :: es, last, ?_, fun suf hsuf => ?_⟩
        · exact splitElems_cons_of_ne c cs e (es ++ [last]) hc h1
        · exact splitElems_cons_of_ne c (cs ++ suf) e (es ++ [last ++ suf]) hc (h2 suf hsuf)

theorem joinElems_snoc (l : List (List Char)) (e : List Char) :
    joinElems (l ++ [e]) = (if l = [] then [] else joinElems l ++ ['/']) ++ e := by
  induction l with
  | nil => simp [joinElems]
  | cons a rest ih =>
    cases rest with
    | nil => simp [joinElems]
    | cons b rest2 =>
      have h : joinElems (a :: (b :: rest2 ++ [e]))
          = a ++ '/' :: joinElems (b :: rest2 ++ [e]) := by
        simp [joinElems]
      have h2 : joinElems (a :: b :: rest2) = a ++ '/' :: joinElems (b :: rest2) := by
        simp [joinElems]
      rw [List.cons_append, h, ih, h2]
      simp

/-- An element that the scan of `filepath.Clean` appends. -/
theorem cleanElem_real (rooted : Bool) (out : List (List Char)) (e : List Char)
    (h0 : e ≠ []) (h1 : e ≠ ['.']) (h2 : e ≠ ['.', '.']) :
    cleanElem rooted out e = e :: out := by
  simp [cleanElem, h0, h1, h2]

/-- The cleaned form of an unrooted path whose last element is appended by the
scan: what the elements before it leave, followed by that element. -/
theorem cleanChars_of_split (path : List Char) (init : List (List Char)) (e : List Char)
    (hroot : path.head? ≠ some '/')
    (hsplit : splitElems path = init ++ [e])
    (h0 : e ≠ []) (h1 : e ≠ ['.']) (h2 : e ≠ ['.', '.']) :
    cleanChars path = dirPart (init.foldl (cleanElem false) []) ++ e := by
  have hne : path ≠ [] := by
    intro h
    subst h
    have : init ++ [e] = [[]] := by rw [← hsplit]; rfl
    cases init with
    | nil => simp at this; exact h0 this
    | cons a rest => simp at this
  have hr : (path.head? == some '/') = false := by
    simpa using hroot
  have hbody : joinElems ((e :: init.foldl (cleanElem false) []).reverse)
      = dirPart (init.foldl (cleanElem false) []) ++ e := by
    rw [List.reverse_cons, joinElems_snoc]
    simp [dirPart]
  have hbne : dirPart (init.foldl (cleanElem false) []) ++ e ≠ [] := by
    simp [h0]
  simp only [cleanChars, hne, if_false, hr, hsplit, List.foldl_append, List.foldl_cons,
    List.foldl_nil, cleanElem_real false _ e h0 h1 h2, hbody, Bool.false_eq_true, hbne]

theorem real_of_length (e : List Char) (h : 3 ≤ e.length) :
    e ≠ [] ∧ e ≠ ['.'] ∧ e ≠ ['.', '.'] := by
  refine ⟨?_, ?_, ?_⟩ <;> intro he <;> subst he <;> simp at h

theorem dirPart_eq_nil_or (out : List (List Char)) :
    dirPart out = [] ∨ ∃ body, dirPart out = body ++ ['/'] := by
  by_cases h : out = []
  · exact Or.inl (by simp [dirPart, h])
  · exact Or.inr ⟨joinElems out.reverse, by simp [dirPart, h]⟩

/-- The written elements are determined by what stands before a further
element. -/
theorem joinElems_of_dirPart_eq (out1 out2 : List (List Char))
    (h : dirPart out1 = dirPart out2) :
    joinElems out1.reverse = joinElems out2.reverse := by
  by_cases h1 : out1 = [] <;> by_cases h2 : out2 = []
  · subst h1; subst h2; rfl
  · simp [dirPart, h1, h2] at h
  · simp [dirPart, h1, h2] at h
  · simpa [dirPart, h1, h2] using h

/-- Two paths that end in a last element without separator, after nothing or
after text that ends in a separator, are equal only if both parts are. -/
theorem append_last_elem_inj (x y f g : List Char)
    (hx : x = [] ∨ ∃ b, x = b ++ ['/']) (hy : y = [] ∨ ∃ b, y = b ++ ['/'])
    (hf : '/' ∉ f) (hg : '/' ∉ g) (h : x ++ f = y ++ g) : x = y ∧ f = g := by
  rcases List.append_eq_append_iff.1 h with ⟨a, hya, hfa⟩ | ⟨a, hxa, hga⟩
  · by_cases ha : a = []
    · subst ha
      simp at hya hfa
      exact ⟨hya.symm, hfa⟩
    · exfalso
      rcases hy with hy | ⟨b, hy⟩
      · rw [hy] at hya
        have := List.append_eq_nil.1 hya.symm
        exact ha this.2
      · have hlast : (x ++ a).getLast? = some '/' := by
          rw [← hya, hy]; simp
        rw [List.getLast?_append_of_ne_nil _ ha] at hlast
        have hmem : '/' ∈ a := List.mem_of_getLast?_eq_some hlast
        exact hf (by rw [hfa]; exact List.mem_append_left _ hmem)
  · by_cases ha : a = []
    · subst ha
      simp at hxa hga
      exact ⟨hxa, hga.symm⟩
    · exfalso
      rcases hx with hx | ⟨b, hx⟩
      · rw [hx] at hxa
        have := List.append_eq_nil.1 hxa.symm
        exact ha this.2
      · have hlast : (y ++ a).getLast? = some '/' := by
          rw [← hxa, hx]; simp
        rw [List.getLast?_append_of_ne_nil _ ha] at hlast
        have hmem : '/' ∈ a := List.mem_of_getLast?_eq_some hlast
        exact hg (by rw [hga]; exact List.mem_append_left _ hmem)

theorem filepathJoin_three (d f : String) :
    filepathJoin ["pdata", d, f]
      = String.mk (cleanChars ("pdata".data ++ '/' :: (d.data ++ '/' :: f.data))) := by
  have h : ("pdata" : String) ≠ "" := by decide
  simp only [filepathJoin, h, ne_eq, not_false_eq_true, if_true, filepathClean, stringsJoin,
    String.data_append]
  simp

theorem filepathJoin_two (d : String) :
    filepathJoin ["pdata", d] = String.mk (cleanChars ("pdata".data ++ '/' :: d.data)) := by
  have h : ("pdata" : String) ≠ "" := by decide
  simp only [filepathJoin, h, ne_eq, not_false_eq_true, if_true, filepathClean, stringsJoin,
    String.data_append]
  simp

/-- The path `filepath.Join("pdata", d, f)` when the file name `f` holds no
separator and has at least three characters: the cleaned directory part, then
`f`. -/
theorem filepathJoin_file (d f : String) (hf : '/' ∉ f.data) (hlen : 3 ≤ f.data.length) :
    filepathJoin ["pdata", d, f]
      = String.mk (dirPart (dirStack ("pdata".data ++ '/' :: d.data)) ++ f.data) := by
  rw [filepathJoin_three]
  obtain ⟨h0, h1, h2⟩ := real_of_length f.data hlen
  have hsplit : splitElems ("pdata".data ++ '/' :: (d.data ++ '/' :: f.data))
      = splitElems ("pdata".data ++ '/' :: d.data) ++ [f.data] := by
    have : "pdata".data ++ '/' :: (d.data ++ '/' :: f.data)
        = ("pdata".data ++ '/' :: d.data) ++ '/' :: f.data := by simp
    rw [this, splitElems_append_sep, splitElems_of_no_sep f.data hf]
  rw [cleanChars_of_split _ _ f.data (by simp) hsplit h0 h1 h2]
  rfl

/-- The directory `filepath.Join("pdata", d)`. -/
theorem filepathJoin_dir (d : String) :
    filepathJoin ["pdata", d]
      = String.mk
        (if joinElems (dirStack ("pdata".data ++ '/' :: d.data)).reverse = [] then ['.']
          else joinElems (dirStack ("pdata".data ++ '/' :: d.data)).reverse) := by
  rw [filepathJoin_two]
  have hne : "pdata".data ++ '/' :: d.data ≠ [] := by simp
  have hr : (("pdata".data ++ '/' :: d.data).head? == some '/') = false := by simp
  simp only [cleanChars, hne, if_false, hr, Bool.false_eq_true, dirStack]

/-- A file name built from a lower-cased struct name by a fixed text before it
and a fixed text after it determines the name, holds a separator only if the
name holds one, and is as long as the text after it. -/
theorem fileName_props (pre suf : String) (hpre : '/' ∉ pre.data) (hsuf : '/' ∉ suf.data)
    (hlen : 3 ≤ suf.data.length) :
    (∀ a b : String, pre ++ a ++ suf = pre ++ b ++ suf → a = b)
      ∧ (∀ a : String, '/' ∉ a.data → '/' ∉ (pre ++ a ++ suf).data)
      ∧ (∀ a : String, 3 ≤ (pre ++ a ++ suf).data.length) := by
  refine ⟨fun a b h => ?_, fun a ha => ?_, fun a => ?_⟩
  · have hd := congrArg String.data h
    simp only [String.data_append, List.append_assoc] at hd
    exact String.ext (List.append_cancel_right (List.append_cancel_left hd))
  · simp only [String.data_append, List.mem_append, not_or]
    exact ⟨⟨hpre, ha⟩, hsuf⟩
  · simp only [String.data_append, List.length_append]
    omega

/-- Paths `filepath.Join("pdata", p.path, fname(lower(s.name)))` over a whole
registry are pairwise different when the package directories are pairwise
different, the lower-cased struct names of each package are pairwise different
and hold no separator, and `fname` is a file name as in `fileName_props`. -/
theorem paths_nodup (caseTable : Char → Char) (fname : String → String)
    (hinj : ∀ a b : String, fname a = fname b → a = b)
    (hsep : ∀ a : String, '/' ∉ a.data → '/' ∉ (fname a).data)
    (hlen : ∀ a : String, 3 ≤ (fname a).data.length)
    (registry : List Package)
    (hdirs : (registry.map (fun p => filepathJoin ["pdata", p.path])).Nodup)
    (hnames : ∀ p ∈ registry, (p.structs.map (fun s => toLower caseTable s.getName)).Nodup)
    (hslash : ∀ p ∈ registry, ∀ s ∈ p.structs, '/' ∉ (toLower caseTable s.getName).data) :
    (registry.flatMap (fun p => p.structs.map
      (fun s => filepathJoin ["pdata", p.path, fname (toLower caseTable s.getName)]))).Nodup := by
  have hkey : ∀ p ∈ registry, ∀ s ∈ p.structs, ∀ q ∈ registry, ∀ t ∈ q.structs,
      filepathJoin ["pdata", p.path, fname (toLower caseTable s.getName)]
        = filepathJoin ["pdata", q.path, fname (toLower caseTable t.getName)] →
      filepathJoin ["pdata", p.path] = filepathJoin ["pdata", q.path]
        ∧ toLower caseTable s.getName = toLower caseTable t.getName := by
    intro p hp s hs q hq t ht h
    rw [filepathJoin_file p.path _ (hsep _ (hslash p hp s hs)) (hlen _),
      filepathJoin_file q.path _ (hsep _ (hslash q hq t ht)) (hlen _)] at h
    have hd := congrArg String.data h
    simp only at hd
    obtain ⟨h1, h2⟩ := append_last_elem_inj _ _ _ _ (dirPart_eq_nil_or _) (dirPart_eq_nil_or _)
      (hsep _ (hslash p hp s hs)) (hsep _ (hslash q hq t ht)) hd
    refine ⟨?_, hinj _ _ (String.ext h2)⟩
    rw [filepathJoin_dir, filepathJoin_dir, joinElems_of_dirPart_eq _ _ h1]
  rw [List.nodup_flatMap]
  refine ⟨fun p hp => ?_, ?_⟩
  · refine List.Nodup.map_on (fun s hs t ht h => ?_) (List.Nodup.of_map _ (hnames p hp))
    exact List.inj_on_of_nodup_map (hnames p hp) hs ht (hkey p hp s hs p hp t ht h).2
  · have hpair : List.Pairwise
        (fun p q => filepathJoin ["pdata", p.path] ≠ filepathJoin ["pdata", q.path])
        registry := List.pairwise_map.1 hdirs
    refine List.Pairwise.imp_of_mem (fun {p q} hp hq hne => ?_) hpair
    intro x hxp hxq
    simp only [List.mem_map] at hxp hxq
    obtain ⟨s, hs, rfl⟩ := hxp
    obtain ⟨t, ht, hxt⟩ := hxq
    exact hne (hkey p hp s hs q hq t ht hxt.symm).1

/-- Text appended to a file name, when it holds no separator and has at least
three characters, is appended to the joined path: the path is a stem that does
not depend on the text, followed by the text. -/
theorem filepathJoin_stem (d g : String) :
    ∃ stem : String, ∀ suf : String, '/' ∉ suf.data → 3 ≤ suf.data.length →
      filepathJoin ["pdata", d, g ++ suf] = stem ++ suf := by
  obtain ⟨init, last, _, hsplit⟩ :=
    splitElems_append_no_sep ("pdata".data ++ '/' :: (d.data ++ '/' :: g.data))
  refine ⟨String.mk (dirPart (init.foldl (cleanElem false) []) ++ last), fun suf hs hl => ?_⟩
  rw [filepathJoin_three]
  have hpath : "pdata".data ++ '/' :: (d.data ++ '/' :: (g ++ suf).data)
      = ("pdata".data ++ '/' :: (d.data ++ '/' :: g.data)) ++ suf.data := by
    simp [String.data_append]
  obtain ⟨h0, h1, h2⟩ := real_of_length (last ++ suf.data)
    (by simp only [List.length_append]; omega)
  rw [hpath, cleanChars_of_split _ init (last ++ suf.data) (by simp) (hsplit suf.data hs)
    h0 h1 h2]
  apply String.ext
  simp [String.data_append]

/-- The files present after always-succeeding writes on the empty filesystem
are the paths written. -/
theorem worldAfter_FS_present (jobs : List (String × String)) (q : String) :
    worldAfter FS.writeFile jobs FS.empty q ≠ none ↔ q ∈ jobs.map Prod.fst := by
  rw [worldAfter_FS]
  cases hf : jobs.reverse.find? (fun j => decide (q = j.1)) with
  | some x =>
    have hx := List.find?_some hf
    have hm : x ∈ jobs := List.mem_reverse.1 (List.mem_of_find?_eq_some hf)
    simp only [decide_eq_true_eq] at hx
    simp only [Option.map_some', List.mem_map]
    constructor
    · intro _
      exact ⟨x, hm, hx.symm⟩
    · intro _
      simp
  | none =>
    have hn := List.find?_eq_none.1 hf
    simp only [Option.map_none', FS.empty, List.mem_map]
    constructor
    · intro h
      simp at h
    · rintro ⟨j, hj, rfl⟩
      have := hn j (List.mem_reverse.2 hj)
      simp at this

theorem worldAfter_FS_ncard (jobs : List (String × String)) :
    Set.ncard {q : String | worldAfter FS.writeFile jobs FS.empty q ≠ none}
      = (jobs.map Prod.fst).dedup.length := by
  have hset : {q : String | worldAfter FS.writeFile jobs FS.empty q ≠ none}
      = ((jobs.map Prod.fst).toFinset : Set String) := by
    ext q
    simp only [Set.mem_setOf_eq, worldAfter_FS_present, List.coe_toFinset]
  rw [hset, Set.ncard_coe_Finset, List.card_toFinset]

/-- C9 (as stated, refuted): the package `clashCommon` is named `pcommon` and
has two structs, `Widget` and `widget`; after `GenerateInternalFiles` on the
empty filesystem, all writes succeeding, the number of files present is not
the number of structs. -/
theorem GenerateInternalFiles_file_count_counterexample :
    clashCommon.name = "pcommon"
      ∧ Set.ncard {q : String |
          (GenerateInternalFiles id FS.writeFile clashCommon FS.empty).2 q ≠ none}
        ≠ clashCommon.structs.length := by
  have h := (Pass.log_of_never_fails Pass.internalFiles id FS.writeFile (fun _ _ _ => rfl)
    clashCommon FS.empty).1
  have h2 : (GenerateInternalFiles id FS.writeFile clashCommon FS.empty).2
      = worldAfter FS.writeFile (Pass.internalFiles.jobs id clashCommon) FS.empty := by
    rw [show GenerateInternalFiles id FS.writeFile clashCommon FS.empty
      = Pass.internalFiles.run id FS.writeFile clashCommon FS.empty from rfl, h]
  refine ⟨rfl, ?_⟩
  rw [h2, worldAfter_FS_ncard]
  decide

/-- C9 (amended): on a package named `pcommon`, starting from the empty
filesystem with all writes succeeding, `GenerateInternalFiles` succeeds and
makes exactly one write per struct; the files present afterwards are exactly
the wrapper paths of the structs, so their number is the number of different
wrapper paths; and it is the number of structs whenever the lower-cased struct
names are pairwise different and hold no `/`. -/
theorem GenerateInternalFiles_file_count (caseTable : Char → Char) (p : Package)
    (hname : p.name = "pcommon") :
    (GenerateInternalFiles caseTable FS.writeFile p FS.empty).1 = .ok ()
      ∧ (GenerateInternalFiles caseTable (traced FS.writeFile) p (FS.empty, [])).2.2.length
        = p.structs.length
      ∧ (∀ q, (GenerateInternalFiles caseTable FS.writeFile p FS.empty).2 q ≠ none
          ↔ q ∈ p.structs.map (fun s => filepathJoin ["pdata", "internal",
              "generated_wrapper_" ++ toLower caseTable s.getName ++ ".go"]))
      ∧ Set.ncard {q : String |
            (GenerateInternalFiles caseTable FS.writeFile p FS.empty).2 q ≠ none}
          = (p.structs.map (fun s => filepathJoin ["pdata", "internal",
              "generated_wrapper_" ++ toLower caseTable s.getName ++ ".go"])).dedup.length
      ∧ ((p.structs.map (fun s => toLower caseTable s.getName)).Nodup →
          (∀ s ∈ p.structs, '/' ∉ (toLower caseTable s.getName).data) →
          Set.ncard {q : String |
              (GenerateInternalFiles caseTable FS.writeFile p FS.empty).2 q ≠ none}
            = p.structs.length) := by
  have hrun := Pass.log_of_never_fails Pass.internalFiles caseTable FS.writeFile
    (fun _ _ _ => rfl) p FS.empty
  have hjobs : Pass.internalFiles.jobs caseTable p
      = p.structs.map (Pass.internalFiles.job caseTable p) := by
    simp [Pass.jobs, (usedByOtherDataTypes_eq_true p.name).2 hname]
  have hpaths : (Pass.internalFiles.jobs caseTable p).map Prod.fst
      = p.structs.map (fun s => filepathJoin ["pdata", "internal",
          "generated_wrapper_" ++ toLower caseTable s.getName ++ ".go"]) := by
    rw [hjobs, List.map_map]
    rfl
  have h1 : GenerateInternalFiles caseTable FS.writeFile p FS.empty
      = (.ok (), worldAfter FS.writeFile (Pass.internalFiles.jobs caseTable p) FS.empty) :=
    hrun.1
  have h2 : (GenerateInternalFiles caseTable (traced FS.writeFile) p (FS.empty, [])).2.2
      = Pass.internalFiles.jobs caseTable p := hrun.2
  have hcount : Set.ncard {q : String |
        (GenerateInternalFiles caseTable FS.writeFile p FS.empty).2 q ≠ none}
      = (p.structs.map (fun s => filepathJoin ["pdata", "internal",
          "generated_wrapper_" ++ toLower caseTable s.getName ++ ".go"])).dedup.length := by
    rw [h1, ← hpaths]
    exact worldAfter_FS_ncard _
  refine ⟨by rw [h1], by rw [h2, hjobs, List.length_map], fun q => ?_, hcount, ?_⟩
  · rw [h1, ← hpaths]
    exact worldAfter_FS_present _ q
  · intro hnodup hslash
    obtain ⟨hinj, hsep, hlen⟩ := fileName_props "generated_wrapper_" ".go"
      (by decide) (by decide) (by decide)
    have hnd := paths_nodup caseTable (fun a => "generated_wrapper_" ++ a ++ ".go")
      hinj hsep hlen [{ p with path := "internal" }] (by simp)
      (by simpa using hnodup) (by simpa using hslash)
    simp only [List.flatMap_cons, List.flatMap_nil, List.append_nil] at hnd
    rw [hcount, List.Nodup.dedup hnd, List.length_map]

/-- An instance: the package `demoCommon`, of three structs with different
lower-cased names. -/
theorem GenerateInternalFiles_file_count_witness :
    demoCommon.name = "pcommon"
      ∧ (demoCommon.structs.map (fun s => toLower id s.getName)).Nodup
      ∧ Set.ncard {q : String |
            (GenerateInternalFiles id FS.writeFile demoCommon FS.empty).2 q ≠ none}
          = demoCommon.structs.length :=
  ⟨rfl, by decide,
    (GenerateInternalFiles_file_count id demoCommon rfl).2.2.2.2 (by decide) (by decide)⟩

/-- C10 (as stated, refuted): in each of three registries the package names
are pairwise different, the package paths are pairwise different and the
struct names are pairwise different (in `dotRegistry` within each package, in
the other two over the whole registry), and yet two (package, struct) pairs get
the same implementation path and the same test path: `Widget` and `widget`
in one package; the struct `x/generated_y` of the package at `demo` and the
struct `y` of the package at `demo/generated_x`; and `Widget` in the packages
at `demo` and at `./demo`. -/
theorem registryPaths_counterexample :
    ((caseRegistry.map Package.name).Nodup ∧ (caseRegistry.map Package.path).Nodup
        ∧ ((caseRegistry.flatMap Package.structs).map BaseStruct.getName).Nodup
        ∧ ¬ (registryPaths Pass.files id caseRegistry).Nodup
        ∧ ¬ (registryPaths Pass.testFiles id caseRegistry).Nodup)
      ∧ ((slashRegistry.map Package.name).Nodup ∧ (slashRegistry.map Package.path).Nodup
        ∧ ((slashRegistry.flatMap Package.structs).map BaseStruct.getName).Nodup
        ∧ ¬ (registryPaths Pass.files id slashRegistry).Nodup
        ∧ ¬ (registryPaths Pass.testFiles id slashRegistry).Nodup)
      ∧ ((dotRegistry.map Package.name).Nodup ∧ (dotRegistry.map Package.path).Nodup
        ∧ dotRegistry.all (fun p => decide (p.structs.map BaseStruct.getName).Nodup) = true
        ∧ ¬ (registryPaths Pass.files id dotRegistry).Nodup
        ∧ ¬ (registryPaths Pass.testFiles id dotRegistry).Nodup) := by
  refine ⟨⟨by decide, by decide, by decide, by decide, by decide⟩,
    ⟨by decide, by decide, by decide, by decide, by decide⟩,
    ⟨by decide, by decide, by decide, by decide, by decide⟩⟩

/-- C10 (amended): for every registry in which the package directories
`filepath.Join("pdata", p.path)` are pairwise different and, within each
package, the lower-cased struct names are pairwise different and hold no `/`,
the implementation paths `GenerateFiles` computes for different (package,
struct) pairs are different, and so are the test paths `GenerateTestFiles`
computes; and, in every registry, the test path of a struct is its
implementation path with `_test` inserted before the `.go` extension. -/
theorem registryPaths_nodup (caseTable : Char → Char) (registry : List Package) :
    ((registry.map (fun p => filepathJoin ["pdata", p.path])).Nodup →
        (∀ p ∈ registry, (p.structs.map (fun s => toLower caseTable s.getName)).Nodup) →
        (∀ p ∈ registry, ∀ s ∈ p.structs, '/' ∉ (toLower caseTable s.getName).data) →
        (registryPaths Pass.files caseTable registry).Nodup
          ∧ (registryPaths Pass.testFiles caseTable registry).Nodup)
      ∧ ∀ p ∈ registry, ∀ s ∈ p.structs, ∃ stem : String,
          (Pass.files.job caseTable p s).1 = stem ++ ".go"
            ∧ (Pass.testFiles.job caseTable p s).1 = stem ++ "_test.go" := by
  refine ⟨fun hdirs hnames hslash => ⟨?_, ?_⟩, fun p _ s _ => ?_⟩
  · obtain ⟨hinj, hsep, hlen⟩ := fileName_props "generated_" ".go"
      (by decide) (by decide) (by decide)
    exact paths_nodup caseTable (fun a => "generated_" ++ a ++ ".go") hinj hsep hlen
      registry hdirs hnames hslash
  · obtain ⟨hinj, hsep, hlen⟩ := fileName_props "generated_" "_test.go"
      (by decide) (by decide) (by decide)
    exact paths_nodup caseTable (fun a => "generated_" ++ a ++ "_test.go") hinj hsep hlen
      registry hdirs hnames hslash
  · obtain ⟨stem, hstem⟩ :=
      filepathJoin_stem p.path ("generated_" ++ toLower caseTable s.getName)
    exact ⟨stem, hstem ".go" (by decide) (by decide),
      hstem "_test.go" (by decide) (by decide)⟩

/-- An instance: the registry of the packages `demo` and `demoCommon`. -/
theorem registryPaths_nodup_witness :
    (([demo, demoCommon] : List Package).map (fun p => filepathJoin ["pdata", p.path])).Nodup
      ∧ (registryPaths Pass.files id [demo, demoCommon]).Nodup
      ∧ (registryPaths Pass.testFiles id [demo, demoCommon]).Nodup :=
  ⟨by decide,
    (registryPaths_nodup id [demo, demoCommon]).1 (by decide) (by decide) (by decide)⟩

/-! ## Order of passes -/

/-- The state two runs of always-succeeding writes leave, path by path. -/
theorem worldAfter_FS_two (jobs1 jobs2 : List (String × String)) (fs : FS) (q : String) :
    worldAfter FS.writeFile jobs2 (worldAfter FS.writeFile jobs1 fs) q
      = ((jobs2.reverse.find? (fun j => decide (q = j.1))).map Prod.snd
          <|> ((jobs1.reverse.find? (fun j => decide (q = j.1))).map Prod.snd <|> fs q)) := by
  rw [worldAfter_FS jobs2, worldAfter_FS jobs1]

theorem find_none_of_not_mem (jobs : List (String × String)) (q : String)
    (h : q ∉ jobs.map Prod.fst) :
    jobs.reverse.find? (fun j => decide (q = j.1)) = none := by
  rw [List.find?_eq_none]
  intro j hj
  have hm : j ∈ jobs := List.mem_reverse.1 hj
  simp only [decide_eq_true_eq]
  intro hq
  exact h (List.mem_map.2 ⟨j, hm, hq.symm⟩)

/-- Runs of always-succeeding writes to disjoint sets of paths can be
swapped. -/
theorem worldAfter_FS_comm (jobs1 jobs2 : List (String × String)) (fs : FS)
    (hdis : List.Disjoint (jobs1.map Prod.fst) (jobs2.map Prod.fst)) :
    worldAfter FS.writeFile jobs2 (worldAfter FS.writeFile jobs1 fs)
      = worldAfter FS.writeFile jobs1 (worldAfter FS.writeFile jobs2 fs) := by
  funext q
  rw [worldAfter_FS_two, worldAfter_FS_two]
  by_cases h1 : q ∈ jobs1.map Prod.fst
  · have h2 : q ∉ jobs2.map Prod.fst := fun h2 => hdis h1 h2
    rw [find_none_of_not_mem jobs2 q h2]
    simp
  · rw [find_none_of_not_mem jobs1 q h1]
    simp

/-- C11 (as stated, refuted): for the package `suffixClash`, with structs
`Widget` and `Widget_test`, `GenerateFiles` and `GenerateTestFiles` both write
the path `pdata/demo/generated_widget_test.go`, so the sets of paths they write
are not disjoint, and running the two passes in the two orders from the empty
filesystem, all writes succeeding, leaves different states. -/
theorem Pass.order_counterexample :
    ¬ List.Disjoint ((Pass.files.jobs id suffixClash).map Prod.fst)
        ((Pass.testFiles.jobs id suffixClash).map Prod.fst)
      ∧ (GenerateTestFiles id FS.writeFile suffixClash
            (GenerateFiles id FS.writeFile suffixClash FS.empty).2).2
        ≠ (GenerateFiles id FS.writeFile suffixClash
            (GenerateTestFiles id FS.writeFile suffixClash FS.empty).2).2 := by
  have hF2 : (Pass.files.job id suffixClash widgetTest).1
      = "pdata/demo/generated_widget_test.go" := by decide
  have hT1 : (Pass.testFiles.job id suffixClash widget).1
      = "pdata/demo/generated_widget_test.go" := by decide
  have hT2 : "pdata/demo/generated_widget_test.go"
      ≠ (Pass.testFiles.job id suffixClash widgetTest).1 := by decide
  refine ⟨?_, ?_⟩
  · intro hdis
    refine hdis (a := "pdata/demo/generated_widget_test.go") ?_ ?_
    · exact List.mem_map.2 ⟨Pass.files.job id suffixClash widgetTest,
        List.mem_cons_of_mem _ (List.mem_singleton.2 rfl), hF2⟩
    · exact List.mem_map.2 ⟨Pass.testFiles.job id suffixClash widget,
        List.mem_cons_self _ _, hT1⟩
  · have hrun : ∀ (pass : Pass) (fs : FS), (pass.run id FS.writeFile suffixClash fs).2
        = worldAfter FS.writeFile (pass.jobs id suffixClash) fs := fun pass fs => by
      rw [(Pass.log_of_never_fails pass id FS.writeFile (fun _ _ _ => rfl) suffixClash fs).1]
    have hfF : (Pass.files.jobs id suffixClash).reverse.find?
          (fun j => decide ("pdata/demo/generated_widget_test.go" = j.1))
        = some (Pass.files.job id suffixClash widgetTest) := by
      show List.find? _ [Pass.files.job id suffixClash widgetTest,
        Pass.files.job id suffixClash widget] = _
      rw [List.find?_cons, hF2]
      simp only [decide_True]
    have hfT : (Pass.testFiles.jobs id suffixClash).reverse.find?
          (fun j => decide ("pdata/demo/generated_widget_test.go" = j.1))
        = some (Pass.testFiles.job id suffixClash widget) := by
      show List.find? _ [Pass.testFiles.job id suffixClash widgetTest,
        Pass.testFiles.job id suffixClash widget] = _
      rw [List.find?_cons]
      simp only [hT2, decide_False]
      rw [List.find?_cons, hT1]
      simp only [decide_True]
    intro h
    have hq := congrFun h "pdata/demo/generated_widget_test.go"
    rw [show GenerateFiles id FS.writeFile suffixClash FS.empty
        = Pass.files.run id FS.writeFile suffixClash FS.empty from rfl,
      show GenerateTestFiles id FS.writeFile suffixClash FS.empty
        = Pass.testFiles.run id FS.writeFile suffixClash FS.empty from rfl,
      show GenerateTestFiles id FS.writeFile suffixClash
          (Pass.files.run id FS.writeFile suffixClash FS.empty).2
        = Pass.testFiles.run id FS.writeFile suffixClash
          (Pass.files.run id FS.writeFile suffixClash FS.empty).2 from rfl,
      show GenerateFiles id FS.writeFile suffixClash
          (Pass.testFiles.run id FS.writeFile suffixClash FS.empty).2
        = Pass.files.run id FS.writeFile suffixClash
          (Pass.testFiles.run id FS.writeFile suffixClash FS.empty).2 from rfl,
      hrun, hrun, hrun, hrun, worldAfter_FS_two, worldAfter_FS_two, hfF, hfT] at hq
    simp only [Option.map_some', Option.some_orElse, Option.some.injEq] at hq
    have hu : usedByOtherDataTypes suffixClash.name = false := by decide
    simp only [Pass.job, hu, String.append_assoc] at hq
    have h1 := string_append_left_cancel _ _ _ hq
    have h2 := string_append_left_cancel _ _ _ h1
    have h3 := string_append_left_cancel _ _ _ h2
    have h4 := string_append_left_cancel _ _ _ h3
    have h5 := string_append_left_cancel _ _ _ h4
    have h6 := string_append_left_cancel _ _ _ h5
    have h7 := string_append_left_cancel _ _ _ h6
    revert h7
    decide

/-- Two joined paths whose file names hold no separator and have at least
three characters are equal only if the directories and the file names are. -/
theorem filepathJoin_file_inj (d1 d2 f g : String)
    (hf : '/' ∉ f.data) (hg : '/' ∉ g.data)
    (hfl : 3 ≤ f.data.length) (hgl : 3 ≤ g.data.length)
    (h : filepathJoin ["pdata", d1, f] = filepathJoin ["pdata", d2, g]) :
    filepathJoin ["pdata", d1] = filepathJoin ["pdata", d2] ∧ f = g := by
  rw [filepathJoin_file d1 f hf hfl, filepathJoin_file d2 g hg hgl] at h
  have hd := congrArg String.data h
  simp only at hd
  obtain ⟨h1, h2⟩ := append_last_elem_inj _ _ _ _ (dirPart_eq_nil_or _) (dirPart_eq_nil_or _)
    hf hg hd
  refine ⟨?_, String.ext h2⟩
  rw [filepathJoin_dir, filepathJoin_dir, joinElems_of_dirPart_eq _ _ h1]

/-- The paths of `GenerateFiles` and of `GenerateTestFiles` for a package are
disjoint when no lower-cased struct name holds a separator or ends in
`_test`. -/
theorem files_testFiles_disjoint (caseTable : Char → Char) (p : Package)
    (hslash : ∀ s ∈ p.structs, '/' ∉ (toLower caseTable s.getName).data)
    (hsuffix : ∀ s ∈ p.structs, ¬ "_test".data <:+ (toLower caseTable s.getName).data) :
    List.Disjoint ((Pass.files.jobs caseTable p).map Prod.fst)
      ((Pass.testFiles.jobs caseTable p).map Prod.fst) := by
  intro q h1 h2
  obtain ⟨j1, hj1, rfl⟩ := List.mem_map.1 h1
  obtain ⟨j2, hj2, hq⟩ := List.mem_map.1 h2
  obtain ⟨s, hs, rfl⟩ := Pass.mem_jobs Pass.files caseTable p j1 hj1
  obtain ⟨t, ht, rfl⟩ := Pass.mem_jobs Pass.testFiles caseTable p j2 hj2
  obtain ⟨_, hsep1, hlen1⟩ := fileName_props "generated_" ".go"
    (by decide) (by decide) (by decide)
  obtain ⟨_, hsep2, hlen2⟩ := fileName_props "generated_" "_test.go"
    (by decide) (by decide) (by decide)
  have hfg := (filepathJoin_file_inj p.path p.path
    ("generated_" ++ toLower caseTable t.getName ++ "_test.go")
    ("generated_" ++ toLower caseTable s.getName ++ ".go")
    (hsep2 _ (hslash t ht)) (hsep1 _ (hslash s hs)) (hlen2 _) (hlen1 _) hq).2
  have hd := congrArg String.data hfg
  simp only [String.data_append, List.append_assoc] at hd
  have hd2 := List.append_cancel_left hd
  have hd3 : ((toLower caseTable t.getName).data ++ "_test".data) ++ ".go".data
      = (toLower caseTable s.getName).data ++ ".go".data := by
    rw [List.append_assoc]
    exact hd2
  exact hsuffix s hs ⟨(toLower caseTable t.getName).data, List.append_cancel_right hd3⟩

/-- The paths of `GenerateInternalFiles` for a package are disjoint from those
of `GenerateFiles` and of `GenerateTestFiles` when no lower-cased struct name
holds a separator and the directory of the package is not
`pdata/internal`. -/
theorem internalFiles_disjoint (caseTable : Char → Char) (p : Package)
    (hslash : ∀ s ∈ p.structs, '/' ∉ (toLower caseTable s.getName).data)
    (hdir : filepathJoin ["pdata", p.path] ≠ filepathJoin ["pdata", "internal"]) :
    List.Disjoint ((Pass.internalFiles.jobs caseTable p).map Prod.fst)
        ((Pass.files.jobs caseTable p).map Prod.fst)
      ∧ List.Disjoint ((Pass.internalFiles.jobs caseTable p).map Prod.fst)
        ((Pass.testFiles.jobs caseTable p).map Prod.fst) := by
  obtain ⟨_, hsep0, hlen0⟩ := fileName_props "generated_wrapper_" ".go"
    (by decide) (by decide) (by decide)
  obtain ⟨_, hsep1, hlen1⟩ := fileName_props "generated_" ".go"
    (by decide) (by decide) (by decide)
  obtain ⟨_, hsep2, hlen2⟩ := fileName_props "generated_" "_test.go"
    (by decide) (by decide) (by decide)
  refine ⟨?_, ?_⟩
  · intro q h1 h2
    obtain ⟨j1, hj1, rfl⟩ := List.mem_map.1 h1
    obtain ⟨j2, hj2, hq⟩ := List.mem_map.1 h2
    obtain ⟨s, hs, rfl⟩ := Pass.mem_jobs Pass.internalFiles caseTable p j1 hj1
    obtain ⟨t, ht, rfl⟩ := Pass.mem_jobs Pass.files caseTable p j2 hj2
    exact hdir (filepathJoin_file_inj p.path "internal"
      ("generated_" ++ toLower caseTable t.getName ++ ".go")
      ("generated_wrapper_" ++ toLower caseTable s.getName ++ ".go")
      (hsep1 _ (hslash t ht)) (hsep0 _ (hslash s hs)) (hlen1 _) (hlen0 _) hq).1
  · intro q h1 h2
    obtain ⟨j1, hj1, rfl⟩ := List.mem_map.1 h1
    obtain ⟨j2, hj2, hq⟩ := List.mem_map.1 h2
    obtain ⟨s, hs, rfl⟩ := Pass.mem_jobs Pass.internalFiles caseTable p j1 hj1
    obtain ⟨t, ht, rfl⟩ := Pass.mem_jobs Pass.testFiles caseTable p j2 hj2
    exact hdir (filepathJoin_file_inj p.path "internal"
      ("generated_" ++ toLower caseTable t.getName ++ "_test.go")
      ("generated_wrapper_" ++ toLower caseTable s.getName ++ ".go")
      (hsep2 _ (hslash t ht)) (hsep0 _ (hslash s hs)) (hlen2 _) (hlen0 _) hq).1

/-- C11 (amended): for every package and every two passes whose sets of
written paths for the package are disjoint, and for every initial filesystem
state, with all writes succeeding, running the two passes in either order
gives the same result and the same final state; and the sets of paths written
by different passes are pairwise disjoint whenever no lower-cased struct name
holds a `/` or ends in `_test` and the directory of the package,
`filepath.Join("pdata", p.path)`, is not `pdata/internal`. -/
theorem Pass.order_insensitive (caseTable : Char → Char) (p : Package) :
    (∀ (a b : Pass) (fs : FS),
        List.Disjoint ((a.jobs caseTable p).map Prod.fst) ((b.jobs caseTable p).map Prod.fst) →
        b.run caseTable FS.writeFile p (a.run caseTable FS.writeFile p fs).2
          = a.run caseTable FS.writeFile p (b.run caseTable FS.writeFile p fs).2)
      ∧ ((∀ s ∈ p.structs, '/' ∉ (toLower caseTable s.getName).data) →
          (∀ s ∈ p.structs, ¬ "_test".data <:+ (toLower caseTable s.getName).data) →
          filepathJoin ["pdata", p.path] ≠ filepathJoin ["pdata", "internal"] →
          ∀ a b : Pass, a ≠ b →
            List.Disjoint ((a.jobs caseTable p).map Prod.fst)
              ((b.jobs caseTable p).map Prod.fst)) := by
  refine ⟨fun a b fs hdis => ?_, fun hslash hsuffix hdir a b hab => ?_⟩
  · have hrun : ∀ (pass : Pass) (fs : FS), pass.run caseTable FS.writeFile p fs
        = (.ok (), worldAfter FS.writeFile (pass.jobs caseTable p) fs) := fun pass fs =>
      (Pass.log_of_never_fails pass caseTable FS.writeFile (fun _ _ _ => rfl) p fs).1
    rw [hrun a fs, hrun b fs, hrun b, hrun a, worldAfter_FS_comm _ _ fs hdis]
  · have h1 := files_testFiles_disjoint caseTable p hslash hsuffix
    obtain ⟨h2, h3⟩ := internalFiles_disjoint caseTable p hslash hdir
    cases a <;> cases b
    · exact absurd rfl hab
    · exact h1
    · exact h2.symm
    · exact h1.symm
    · exact absurd rfl hab
    · exact h3.symm
    · exact h2
    · exact h3
    · exact absurd rfl hab

/-- An instance: `GenerateFiles` and `GenerateTestFiles` on the package `demo`,
from the empty filesystem. -/
theorem Pass.order_insensitive_witness :
    filepathJoin ["pdata", demo.path] ≠ filepathJoin ["pdata", "internal"]
      ∧ List.Disjoint ((Pass.files.jobs id demo).map Prod.fst)
          ((Pass.testFiles.jobs id demo).map Prod.fst)
      ∧ Pass.testFiles.run id FS.writeFile demo (Pass.files.run id FS.writeFile demo FS.empty).2
        = Pass.files.run id FS.writeFile demo
          (Pass.testFiles.run id FS.writeFile demo FS.empty).2 :=
  have hd : List.Disjoint ((Pass.files.jobs id demo).map Prod.fst)
      ((Pass.testFiles.jobs id demo).map Prod.fst) :=
    (Pass.order_insensitive id demo).2 (by decide) (by decide) (by decide)
      Pass.files Pass.testFiles (by decide)
  ⟨by decide, hd, (Pass.order_insensitive id demo).1 Pass.files Pass.testFiles FS.empty hd⟩

/-! ## Import blocks -/

theorem imports_foldl_eq_spec (imports : List String) :
    imports.foldl
        (fun sb imp => if imp ≠ "" then sb ++ ("\t" ++ imp ++ newLine) else sb ++ newLine) ""
      = importLinesSpec imports := by
  induction imports with
  | nil => rfl
  | cons e rest ih =>
    have hstep : (if e ≠ "" then "" ++ ("\t" ++ e ++ newLine) else "" ++ newLine)
        = importLineSpec e ++ "" := by
      by_cases he : e = ""
      · simp [importLineSpec, he, newLine]
      · simp [importLineSpec, he, newLine]
    rw [List.foldl_cons, hstep, imports_foldl_append, ih]
    rfl

/-- The import block of the code is the import block of the specification. -/
theorem importBlock_eq_spec (imports : List String) :
    importBlock imports = importBlockSpec imports := by
  have h := imports_foldl_append imports ("" ++ ("import (" ++ newLine)) ""
  rw [String.append_empty, imports_foldl_eq_spec] at h
  show imports.foldl
      (fun sb imp => if imp ≠ "" then sb ++ ("\t" ++ imp ++ newLine) else sb ++ newLine)
      ("" ++ ("import (" ++ newLine)) ++ ")" = importBlockSpec imports
  rw [h]
  simp only [importBlockSpec, newLine, String.empty_append]

theorem importLineSpec_data (e : String) :
    (importLineSpec e).data = (if e = "" then [] else '\t' :: e.data) ++ ['\n'] := by
  by_cases he : e = ""
  · simp [importLineSpec, he]
  · simp [importLineSpec, he, String.data_append]

/-- Text up to the first newline, and the text after it, are determined. -/
theorem first_newline_split (a b x y : List Char) (ha : '\n' ∉ a) (hb : '\n' ∉ b)
    (h : a ++ '\n' :: x = b ++ '\n' :: y) : a = b ∧ x = y := by
  induction a generalizing b with
  | nil =>
    cases b with
    | nil => simpa using h
    | cons c cs =>
      simp only [List.nil_append, List.cons_append, List.cons.injEq] at h
      exact absurd (by simp [← h.1]) hb
  | cons c cs ih =>
    cases b with
    | nil =>
      simp only [List.nil_append, List.cons_append, List.cons.injEq] at h
      exact absurd (by simp [h.1]) ha
    | cons d ds =>
      simp only [List.cons_append, List.cons.injEq] at h
      obtain ⟨h1, h2⟩ := ih ds (fun hm => ha (List.mem_cons_of_mem _ hm))
        (fun hm => hb (List.mem_cons_of_mem _ hm)) h.2
      exact ⟨by rw [h.1, h1], h2⟩

theorem importLinesSpec_count (imports : List String)
    (hnl : ∀ e ∈ imports, '\n' ∉ e.data) :
    (importLinesSpec imports).data.count '\n' = imports.length := by
  induction imports with
  | nil => rfl
  | cons e rest ih =>
    have he : '\n' ∉ e.data := hnl e (List.mem_cons_self _ _)
    have hrest := ih (fun x hx => hnl x (List.mem_cons_of_mem _ hx))
    have hline : (importLineSpec e).data.count '\n' = 1 := by
      rw [importLineSpec_data]
      by_cases hem : e = ""
      · simp [hem]
      · simp [hem, List.count_eq_zero.2 he]
    simp only [importLinesSpec, String.data_append, List.count_append, hline, hrest,
      List.length_cons]
    omega

theorem importLinesSpec_inj (l1 l2 : List String)
    (h1 : ∀ e ∈ l1, '\n' ∉ e.data) (h2 : ∀ e ∈ l2, '\n' ∉ e.data)
    (h : importLinesSpec l1 = importLinesSpec l2) : l1 = l2 := by
  induction l1 generalizing l2 with
  | nil =>
    cases l2 with
    | nil => rfl
    | cons e rest =>
      have hd := congrArg String.data h
      simp [importLinesSpec, String.data_append, importLineSpec_data] at hd
  | cons e1 r1 ih =>
    cases l2 with
    | nil =>
      have hd := congrArg String.data h
      simp [importLinesSpec, String.data_append, importLineSpec_data] at hd
    | cons e2 r2 =>
      have hd := congrArg String.data h
      simp only [importLinesSpec, String.data_append, importLineSpec_data,
        List.append_assoc, List.singleton_append] at hd
      have hn1 : '\n' ∉ (if e1 = "" then [] else '\t' :: e1.data) := by
        have := h1 e1 (List.mem_cons_self _ _)
        split <;> simp [this]
      have hn2 : '\n' ∉ (if e2 = "" then [] else '\t' :: e2.data) := by
        have := h2 e2 (List.mem_cons_self _ _)
        split <;> simp [this]
      obtain ⟨hpre, hrest⟩ := first_newline_split _ _ _ _ hn1 hn2 hd
      have he : e1 = e2 := by
        by_cases c1 : e1 = "" <;> by_cases c2 : e2 = ""
        · rw [c1, c2]
        · simp [c1, c2] at hpre
        · simp [c1, c2] at hpre
        · simp only [c1, c2, if_false, List.cons.injEq, true_and] at hpre
          exact String.ext hpre
      rw [he, ih r2 (fun x hx => h1 x (List.mem_cons_of_mem _ hx))
        (fun x hx => h2 x (List.mem_cons_of_mem _ hx)) (String.ext hrest)]

/-- C12: the import block the code builds for an import list is `import (`
and a newline, then, for each entry in list order, one line that is a tab and
the entry or, for the empty entry, an empty line, then `)`; every content any
of the three passes writes holds, right after the header, this block for
`p.testImports` (`GenerateTestFiles`) or for `p.imports` (the other two
passes); and for lists whose entries hold no newline the lines between opener
and closer are exactly as many as the entries, and different lists give
different blocks. -/
theorem importBlock_assembly {σ ε : Type} (caseTable : Char → Char)
    (writeFile : String → String → σ → Except ε Unit × σ) (p : Package) (w : σ) :
    (∀ imports : List String,
        importBlock imports = "import (" ++ "\n" ++ importLinesSpec imports ++ ")")
      ∧ (∀ (pass : Pass) (i : Nat) (entry : String × String),
          (pass.run caseTable (traced writeFile) p (w, [])).2.2[i]? = some entry →
          ∃ rest, entry.2
            = header ++ "\n\n" ++ "package "
              ++ (if pass = Pass.internalFiles then "internal" else p.name) ++ "\n\n"
              ++ importBlockSpec (if pass = Pass.testFiles then p.testImports else p.imports)
              ++ rest)
      ∧ (∀ imports : List String, (∀ e ∈ imports, '\n' ∉ e.data) →
          (importLinesSpec imports).data.count '\n' = imports.length)
      ∧ (∀ l1 l2 : List String, (∀ e ∈ l1, '\n' ∉ e.data) → (∀ e ∈ l2, '\n' ∉ e.data) →
          importBlock l1 = importBlock l2 → l1 = l2) := by
  refine ⟨fun imports => importBlock_eq_spec imports, fun pass i entry hentry => ?_,
    importLinesSpec_count, fun l1 l2 h1 h2 h => ?_⟩
  · have hj := Pass.jobs_of_log_getElem pass caseTable writeFile p w i entry hentry
    obtain ⟨s, _, rfl⟩ := Pass.mem_jobs pass caseTable p entry (List.getElem?_mem hj)
    cases pass
    · exact ⟨"\n\n" ++ s.structText ++ "\n", by
        simp [Pass.job, String.append_assoc, importBlock_eq_spec]⟩
    · exact ⟨"\n\n" ++ s.testsText
          ++ (if usedByOtherDataTypes p.name then "" else "\n\n" ++ s.testValueHelpersText), by
        simp [Pass.job, String.append_assoc, importBlock_eq_spec]⟩
    · exact ⟨s.internalText ++ "\n" ++ "\n\n" ++ s.testValueHelpersText ++ "\n", by
        simp [Pass.job, String.append_assoc, importBlock_eq_spec]⟩
  · rw [importBlock_eq_spec, importBlock_eq_spec] at h
    have hd := congrArg String.data h
    simp only [importBlockSpec, String.data_append, List.append_assoc] at hd
    have hd2 := List.append_cancel_right (List.append_cancel_left (List.append_cancel_left hd))
    exact importLinesSpec_inj l1 l2 h1 h2 (String.ext hd2)

/-- An instance: the import list of the package `demo`, three entries of which
the second is empty, gives three lines, and the second file `GenerateFiles`
writes for `demo` holds its import block. -/
theorem importBlock_assembly_witness :
    (importLinesSpec demo.imports).data.count '\n' = demo.imports.length
      ∧ (Pass.files.run id (traced FS.writeFile) demo (FS.empty, [])).2.2[1]?
        = some (Pass.files.job id demo gadget)
      ∧ (∃ rest, (Pass.files.job id demo gadget).2
          = header ++ "\n\n" ++ "package "
            ++ (if Pass.files = Pass.internalFiles then "internal" else demo.name) ++ "\n\n"
            ++ importBlockSpec
              (if Pass.files = Pass.testFiles then demo.testImports else demo.imports)
            ++ rest)
      ∧ demo.imports = demo.imports :=
  have h : (Pass.files.run id (traced FS.writeFile) demo (FS.empty, [])).2.2[1]?
      = some (Pass.files.job id demo gadget) :=
    Pass.log_getElem Pass.files id FS.writeFile demo FS.empty 1 _ rfl (fun _ _ _ _ => rfl)
  ⟨(importBlock_assembly id FS.writeFile demo FS.empty).2.2.1 demo.imports (by decide),
    h,
    (importBlock_assembly id FS.writeFile demo FS.empty).2.1 Pass.files 1 _ h,
    (importBlock_assembly id FS.writeFile demo FS.empty).2.2.2 demo.imports demo.imports
      (by decide) (by decide) rfl⟩

/-! ## Colliding paths -/

/-- Among always-succeeding writes the last one to a path is the one that
stays. -/
theorem find_reverse_last (jobs : List (String × String)) (q : String) (j : Nat)
    (x : String × String) (hx : jobs[j]? = some x) (hq : q = x.1)
    (hlater : ∀ k y, j < k → jobs[k]? = some y → y.1 ≠ q) :
    jobs.reverse.find? (fun y => decide (q = y.1)) = some x := by
  obtain ⟨hj, hxj⟩ := List.getElem?_eq_some.1 hx
  have hsplit : jobs = jobs.take j ++ x :: jobs.drop (j + 1) := by
    rw [← hxj, ← List.drop_eq_getElem_cons hj, List.take_append_drop]
  have hnone : (jobs.drop (j + 1)).reverse.find? (fun y => decide (q = y.1)) = none := by
    rw [List.find?_eq_none]
    intro y hy
    have hy2 : y ∈ jobs.drop (j + 1) := List.mem_reverse.1 hy
    obtain ⟨k, hk⟩ := List.getElem?_of_mem hy2
    rw [List.getElem?_drop] at hk
    have := hlater (j + 1 + k) y (by omega) hk
    simp only [decide_eq_true_eq]
    exact fun h => this h.symm
  rw [hsplit, List.reverse_append, List.reverse_cons, List.append_assoc, List.find?_append,
    hnone]
  simp [hq]

/-- The file `GenerateFiles` leaves at the path of the last struct of a
package of three structs that are all written to that path holds the content
generated for that struct, and not the content generated for the second
struct. -/
theorem last_of_three_wins (p : Package) (a b c : BaseStruct) (hp : p.structs = [a, b, c])
    (hpath : (Pass.files.job id p b).1 = (Pass.files.job id p c).1)
    (hne : b.structText ++ "\n" ≠ c.structText ++ "\n") :
    (GenerateFiles id FS.writeFile p FS.empty).2 (Pass.files.job id p b).1
        ≠ some (Pass.files.job id p b).2
      ∧ (GenerateFiles id FS.writeFile p FS.empty).2 (Pass.files.job id p b).1
        = some (Pass.files.job id p c).2 := by
  have hrun : (GenerateFiles id FS.writeFile p FS.empty).2
      = worldAfter FS.writeFile (Pass.files.jobs id p) FS.empty := by
    rw [show GenerateFiles id FS.writeFile p FS.empty
        = Pass.files.run id FS.writeFile p FS.empty from rfl,
      (Pass.log_of_never_fails Pass.files id FS.writeFile (fun _ _ _ => rfl) p FS.empty).1]
  have hjobs : Pass.files.jobs id p
      = [Pass.files.job id p a, Pass.files.job id p b, Pass.files.job id p c] := by
    simp only [Pass.jobs, hp, List.map_cons, List.map_nil]
  have hfind := find_reverse_last (Pass.files.jobs id p) (Pass.files.job id p b).1 2
    (Pass.files.job id p c) (by rw [hjobs]; rfl) hpath (fun k y hk hy => by
      have hlen : (Pass.files.jobs id p).length = 3 := by rw [hjobs]; rfl
      rw [List.getElem?_eq_none (by omega)] at hy
      cases hy)
  have hfinal : (GenerateFiles id FS.writeFile p FS.empty).2 (Pass.files.job id p b).1
      = some (Pass.files.job id p c).2 := by
    rw [hrun, worldAfter_FS, hfind]
    rfl
  refine ⟨?_, hfinal⟩
  rw [hfinal]
  intro hc
  have hc2 := Option.some.inj hc
  simp only [Pass.job, String.append_assoc] at hc2
  have h1 := string_append_left_cancel _ _ _ hc2
  have h2 := string_append_left_cancel _ _ _ h1
  have h3 := string_append_left_cancel _ _ _ h2
  have h4 := string_append_left_cancel _ _ _ h3
  have h5 := string_append_left_cancel _ _ _ h4
  have h6 := string_append_left_cancel _ _ _ h5
  have h7 := string_append_left_cancel _ _ _ h6
  exact hne h7.symm

/-- C13 (as stated, refuted): the package `tripleClash` has the structs
`Widget`, `widget` and `WIDGET`, in this order; the names of the first two are
equal after lower-casing, and after `GenerateFiles`, all writes succeeding, the
file at their common path does not hold the content generated for `widget`,
the later of the two: it holds the content generated for `WIDGET`. The same
happens in the package `detourClash`, where `Widget` and `widget` are the only
two structs with that lower-cased name and the third struct, named
`x/../generated_widget`, is written to the same path. -/
theorem GenerateFiles_collision_counterexample :
    (tripleClash.structs[0]? = some widget
        ∧ tripleClash.structs[1]? = some widgetLower
        ∧ toLower id widget.getName = toLower id widgetLower.getName
        ∧ (Pass.files.job id tripleClash widget).1
          = (Pass.files.job id tripleClash widgetLower).1
        ∧ (GenerateFiles id FS.writeFile tripleClash FS.empty).2
            (Pass.files.job id tripleClash widgetLower).1
          ≠ some (Pass.files.job id tripleClash widgetLower).2
        ∧ (GenerateFiles id FS.writeFile tripleClash FS.empty).2
            (Pass.files.job id tripleClash widgetLower).1
          = some (Pass.files.job id tripleClash widgetUpper).2)
      ∧ (detourClash.structs[0]? = some widget
        ∧ detourClash.structs[1]? = some widgetLower
        ∧ toLower id widget.getName = toLower id widgetLower.getName
        ∧ toLower id widgetDetour.getName ≠ toLower id widgetLower.getName
        ∧ (Pass.files.job id detourClash widget).1
          = (Pass.files.job id detourClash widgetLower).1
        ∧ (GenerateFiles id FS.writeFile detourClash FS.empty).2
            (Pass.files.job id detourClash widgetLower).1
          ≠ some (Pass.files.job id detourClash widgetLower).2
        ∧ (GenerateFiles id FS.writeFile detourClash FS.empty).2
            (Pass.files.job id detourClash widgetLower).1
          = some (Pass.files.job id detourClash widgetDetour).2) := by
  have h1 := last_of_three_wins tripleClash widget widgetLower widgetUpper rfl
    (by decide) (by decide)
  have h2 := last_of_three_wins detourClash widget widgetLower widgetDetour rfl
    (by decide) (by decide)
  exact ⟨⟨rfl, rfl, by decide, by decide, h1.1, h1.2⟩,
    ⟨rfl, rfl, by decide, by decide, by decide, h2.1, h2.2⟩⟩

/-- Among writes of which the one at index `j` goes to the path `q` there is a
last one that goes to `q`, at index `j` or later. -/
theorem exists_last_write (jobs : List (String × String)) (q : String) (j : Nat)
    (x : String × String) (hx : jobs[j]? = some x) (hq : x.1 = q) :
    ∃ k y, j ≤ k ∧ jobs[k]? = some y ∧ y.1 = q
      ∧ ∀ k2 y2, k < k2 → jobs[k2]? = some y2 → y2.1 ≠ q := by
  have hj : j < jobs.length := (List.getElem?_eq_some.1 hx).1
  have hPj : (jobs[j]?).map Prod.fst = some q := by rw [hx, Option.map_some', hq]
  have hspec : (jobs[Nat.findGreatest (fun k => (jobs[k]?).map Prod.fst = some q)
      jobs.length]?).map Prod.fst = some q :=
    Nat.findGreatest_spec (P := fun k => (jobs[k]?).map Prod.fst = some q)
      (Nat.le_of_lt hj) hPj
  have hle : j ≤ Nat.findGreatest (fun k => (jobs[k]?).map Prod.fst = some q) jobs.length :=
    Nat.le_findGreatest (Nat.le_of_lt hj) hPj
  cases hy : jobs[Nat.findGreatest (fun k => (jobs[k]?).map Prod.fst = some q)
      jobs.length]? with
  | none =>
    rw [hy] at hspec
    cases hspec
  | some y =>
    rw [hy] at hspec
    refine ⟨_, y, hle, hy, Option.some.inj hspec, fun k2 y2 hk hy2 hq2 => ?_⟩
    have hk2 : k2 < jobs.length := (List.getElem?_eq_some.1 hy2).1
    exact Nat.findGreatest_is_greatest (P := fun k => (jobs[k]?).map Prod.fst = some q)
      hk (Nat.le_of_lt hk2) (by
        show (jobs[k2]?).map Prod.fst = some q
        rw [hy2, Option.map_some', hq2])

/-- C13 (amended): for every package with two structs `s`, at index `i`, and
`t`, at a later index `j`, whose names are equal after lower-casing, and every
initial filesystem state, with all writes succeeding: `GenerateFiles` returns
success; it writes the content generated for `s` and the content generated
for `t` to one and the same path; the file finally left at that path holds the
content generated for the last struct of `p.structs` that is written to that
path, a struct at index `j` or later; and it holds the content generated for
`t` when no struct after `t` is written to that path. -/
theorem GenerateFiles_collision (caseTable : Char → Char) (p : Package) (fs : FS)
    (i j : Nat) (s t : BaseStruct) (hij : i < j)
    (hs : p.structs[i]? = some s) (ht : p.structs[j]? = some t)
    (hlow : toLower caseTable s.getName = toLower caseTable t.getName) :
    (GenerateFiles caseTable FS.writeFile p fs).1 = .ok ()
      ∧ (GenerateFiles caseTable (traced FS.writeFile) p (fs, [])).2.2[i]?
        = some (filepathJoin
            ["pdata", p.path, "generated_" ++ toLower caseTable t.getName ++ ".go"],
          (Pass.files.job caseTable p s).2)
      ∧ (GenerateFiles caseTable (traced FS.writeFile) p (fs, [])).2.2[j]?
        = some (filepathJoin
            ["pdata", p.path, "generated_" ++ toLower caseTable t.getName ++ ".go"],
          (Pass.files.job caseTable p t).2)
      ∧ (∃ (k : Nat) (u : BaseStruct), j ≤ k ∧ p.structs[k]? = some u
          ∧ (Pass.files.job caseTable p u).1
            = filepathJoin
              ["pdata", p.path, "generated_" ++ toLower caseTable t.getName ++ ".go"]
          ∧ (∀ (k2 : Nat) (u2 : BaseStruct), k < k2 → p.structs[k2]? = some u2 →
              (Pass.files.job caseTable p u2).1
                ≠ filepathJoin
                  ["pdata", p.path, "generated_" ++ toLower caseTable t.getName ++ ".go"])
          ∧ (GenerateFiles caseTable FS.writeFile p fs).2
              (filepathJoin
                ["pdata", p.path, "generated_" ++ toLower caseTable t.getName ++ ".go"])
            = some (Pass.files.job caseTable p u).2)
      ∧ ((∀ k u, j < k → p.structs[k]? = some u →
            (Pass.files.job caseTable p u).1
              ≠ filepathJoin
                ["pdata", p.path, "generated_" ++ toLower caseTable t.getName ++ ".go"]) →
          (GenerateFiles caseTable FS.writeFile p fs).2
              (filepathJoin
                ["pdata", p.path, "generated_" ++ toLower caseTable t.getName ++ ".go"])
            = some (Pass.files.job caseTable p t).2) := by
  have hrun := Pass.log_of_never_fails Pass.files caseTable FS.writeFile
    (fun _ _ _ => rfl) p fs
  have _hlater : i ≠ j := Nat.ne_of_lt hij
  have h1 : GenerateFiles caseTable FS.writeFile p fs
      = (.ok (), worldAfter FS.writeFile (Pass.files.jobs caseTable p) fs) := hrun.1
  have h2 : (GenerateFiles caseTable (traced FS.writeFile) p (fs, [])).2.2
      = Pass.files.jobs caseTable p := hrun.2
  have hjobs : Pass.files.jobs caseTable p = p.structs.map (Pass.files.job caseTable p) := rfl
  have hjs : (Pass.files.jobs caseTable p)[i]? = some (Pass.files.job caseTable p s) := by
    rw [hjobs, List.getElem?_map, hs]; rfl
  have hjt : (Pass.files.jobs caseTable p)[j]? = some (Pass.files.job caseTable p t) := by
    rw [hjobs, List.getElem?_map, ht]; rfl
  have hps : Pass.files.job caseTable p s
      = (filepathJoin ["pdata", p.path, "generated_" ++ toLower caseTable t.getName ++ ".go"],
        (Pass.files.job caseTable p s).2) := by
    rw [← hlow]; rfl
  have hpt : Pass.files.job caseTable p t
      = (filepathJoin ["pdata", p.path, "generated_" ++ toLower caseTable t.getName ++ ".go"],
        (Pass.files.job caseTable p t).2) := rfl
  have hstruct : ∀ (k : Nat) (y : String × String),
      (Pass.files.jobs caseTable p)[k]? = some y →
      ∃ u, p.structs[k]? = some u ∧ Pass.files.job caseTable p u = y := fun k y hy => by
    rw [hjobs, List.getElem?_map] at hy
    rcases hu : p.structs[k]? with _ | u
    · rw [hu] at hy; cases hy
    · rw [hu] at hy
      exact ⟨u, rfl, Option.some.inj hy⟩
  have hlast : ∀ (k : Nat) (u : BaseStruct), p.structs[k]? = some u →
      (∀ (k2 : Nat) (u2 : BaseStruct), k < k2 → p.structs[k2]? = some u2 →
        (Pass.files.job caseTable p u2).1
          ≠ filepathJoin
            ["pdata", p.path, "generated_" ++ toLower caseTable t.getName ++ ".go"]) →
      (Pass.files.job caseTable p u).1
        = filepathJoin
          ["pdata", p.path, "generated_" ++ toLower caseTable t.getName ++ ".go"] →
      (GenerateFiles caseTable FS.writeFile p fs).2
          (filepathJoin
            ["pdata", p.path, "generated_" ++ toLower caseTable t.getName ++ ".go"])
        = some (Pass.files.job caseTable p u).2 := fun k u hu hlater hpath => by
    have hju : (Pass.files.jobs caseTable p)[k]? = some (Pass.files.job caseTable p u) := by
      rw [hjobs, List.getElem?_map, hu]; rfl
    have hfind := find_reverse_last (Pass.files.jobs caseTable p)
      (filepathJoin ["pdata", p.path, "generated_" ++ toLower caseTable t.getName ++ ".go"]) k
      (Pass.files.job caseTable p u) hju hpath.symm (fun k2 y hk hy => by
        obtain ⟨u2, hu2, rfl⟩ := hstruct k2 y hy
        exact hlater k2 u2 hk hu2)
    rw [h1]
    show worldAfter FS.writeFile (Pass.files.jobs caseTable p) fs _ = _
    rw [worldAfter_FS, hfind]
    rfl
  refine ⟨by rw [h1], by rw [h2, hjs, ← hps], by rw [h2, hjt, ← hpt], ?_, ?_⟩
  · obtain ⟨k, y, hjk, hy, hyq, hafter⟩ := exists_last_write (Pass.files.jobs caseTable p)
      (filepathJoin ["pdata", p.path, "generated_" ++ toLower caseTable t.getName ++ ".go"]) j
      (Pass.files.job caseTable p t) hjt rfl
    obtain ⟨u, hu, rfl⟩ := hstruct k y hy
    have hlater : ∀ (k2 : Nat) (u2 : BaseStruct), k < k2 → p.structs[k2]? = some u2 →
        (Pass.files.job caseTable p u2).1
          ≠ filepathJoin
            ["pdata", p.path, "generated_" ++ toLower caseTable t.getName ++ ".go"] :=
      fun k2 u2 hk hu2 => hafter k2 (Pass.files.job caseTable p u2) hk (by
        rw [hjobs, List.getElem?_map, hu2]; rfl)
    exact ⟨k, u, hjk, hu, hyq, hlater, hlast k u hu hlater hyq⟩
  · intro hlater
    exact hlast j t ht hlater rfl

/-- An instance: the structs `widget` and `WIDGET` of the package
`tripleClash`, on the empty filesystem; no struct comes after `WIDGET`. -/
theorem GenerateFiles_collision_witness :
    tripleClash.structs[1]? = some widgetLower
      ∧ tripleClash.structs[2]? = some widgetUpper
      ∧ toLower id widgetLower.getName = toLower id widgetUpper.getName
      ∧ (GenerateFiles id FS.writeFile tripleClash FS.empty).2
          (filepathJoin
            ["pdata", tripleClash.path, "generated_" ++ toLower id widgetUpper.getName ++ ".go"])
        = some (Pass.files.job id tripleClash widgetUpper).2 :=
  ⟨rfl, rfl, by decide,
    (GenerateFiles_collision id tripleClash FS.empty 1 2 widgetLower widgetUpper (by decide)
      rfl rfl (by decide)).2.2.2.2 (fun k u hk hu => by
        have hlen : tripleClash.structs.length = 3 := rfl
        rw [List.getElem?_eq_none (by omega)] at hu
        cases hu)⟩

/-! ## Fields a pass reads -/

theorem jobs_congr (pass : Pass) (caseTable : Char → Char) (p1 p2 : Package)
    (hname : p1.name = p2.name) (hpath : p1.path = p2.path)
    (himports : pass ≠ Pass.testFiles → p1.imports = p2.imports)
    (htests : pass = Pass.testFiles → p1.testImports = p2.testImports)
    (hstructs : p1.structs = p2.structs) :
    pass.jobs caseTable p1 = pass.jobs caseTable p2 := by
  cases pass
  · have hi := himports (by decide)
    have hjob : Pass.files.job caseTable p1 = Pass.files.job caseTable p2 := by
      funext s
      simp only [Pass.job, hname, hpath, hi]
    simp only [Pass.jobs, hjob, hstructs]
  · have ht := htests rfl
    have hjob : Pass.testFiles.job caseTable p1 = Pass.testFiles.job caseTable p2 := by
      funext s
      simp only [Pass.job, hname, hpath, ht]
    simp only [Pass.jobs, hjob, hstructs]
  · have hi := himports (by decide)
    have hjob : Pass.internalFiles.job caseTable p1 = Pass.internalFiles.job caseTable p2 := by
      funext s
      simp only [Pass.job, hi]
    simp only [Pass.jobs, hjob, hname, hstructs]

/-- C14: for any two packages that agree on name, path, imports and structs,
whatever their test imports, `GenerateFiles` and `GenerateInternalFiles`
return the same result, leave the same world and make identical sequences of
(path, content) calls of `writeFile`; for any two packages that agree on name,
path, test imports and structs, whatever their imports, `GenerateTestFiles`
does. -/
theorem Pass.reads_only_its_fields {σ ε : Type} (caseTable : Char → Char)
    (writeFile : String → String → σ → Except ε Unit × σ) (w : σ) (p1 p2 : Package) :
    (p1.name = p2.name → p1.path = p2.path → p1.imports = p2.imports →
        p1.structs = p2.structs →
        (GenerateFiles caseTable writeFile p1 w = GenerateFiles caseTable writeFile p2 w
          ∧ (GenerateFiles caseTable (traced writeFile) p1 (w, [])).2.2
            = (GenerateFiles caseTable (traced writeFile) p2 (w, [])).2.2)
        ∧ (GenerateInternalFiles caseTable writeFile p1 w
            = GenerateInternalFiles caseTable writeFile p2 w
          ∧ (GenerateInternalFiles caseTable (traced writeFile) p1 (w, [])).2.2
            = (GenerateInternalFiles caseTable (traced writeFile) p2 (w, [])).2.2))
      ∧ (p1.name = p2.name → p1.path = p2.path → p1.testImports = p2.testImports →
        p1.structs = p2.structs →
        GenerateTestFiles caseTable writeFile p1 w = GenerateTestFiles caseTable writeFile p2 w
          ∧ (GenerateTestFiles caseTable (traced writeFile) p1 (w, [])).2.2
            = (GenerateTestFiles caseTable (traced writeFile) p2 (w, [])).2.2) := by
  have hrun : ∀ (pass : Pass) {τ : Type} (wf : String → String → τ → Except ε Unit × τ)
      (v : τ), pass.jobs caseTable p1 = pass.jobs caseTable p2 →
      pass.run caseTable wf p1 v = pass.run caseTable wf p2 v := fun pass τ wf v h => by
    rw [Pass.run_eq_writeAll, Pass.run_eq_writeAll, h]
  refine ⟨fun hn hp hi hs => ⟨⟨?_, ?_⟩, ⟨?_, ?_⟩⟩, fun hn hp ht hs => ⟨?_, ?_⟩⟩
  · exact hrun Pass.files writeFile w
      (jobs_congr _ caseTable p1 p2 hn hp (fun _ => hi) (fun h => by cases h) hs)
  · exact congrArg (fun r => r.2.2) (hrun Pass.files (traced writeFile) (w, [])
      (jobs_congr _ caseTable p1 p2 hn hp (fun _ => hi) (fun h => by cases h) hs))
  · exact hrun Pass.internalFiles writeFile w
      (jobs_congr _ caseTable p1 p2 hn hp (fun _ => hi) (fun h => by cases h) hs)
  · exact congrArg (fun r => r.2.2) (hrun Pass.internalFiles (traced writeFile) (w, [])
      (jobs_congr _ caseTable p1 p2 hn hp (fun _ => hi) (fun h => by cases h) hs))
  · exact hrun Pass.testFiles writeFile w
      (jobs_congr _ caseTable p1 p2 hn hp (fun h => absurd rfl h) (fun _ => ht) hs)
  · exact congrArg (fun r => r.2.2) (hrun Pass.testFiles (traced writeFile) (w, [])
      (jobs_congr _ caseTable p1 p2 hn hp (fun h => absurd rfl h) (fun _ => ht) hs))

/-- An instance: the package `demo` and the same package with other test
imports, for `GenerateFiles` and `GenerateInternalFiles`; `demo` and the same
package with other imports, for `GenerateTestFiles`. -/
theorem Pass.reads_only_its_fields_witness :
    demo.testImports ≠ demoOtherTests.testImports
      ∧ demo.imports ≠ demoOtherImports.imports
      ∧ (GenerateFiles id (traced FS.writeFile) demo (FS.empty, [])).2.2
        = (GenerateFiles id (traced FS.writeFile) demoOtherTests (FS.empty, [])).2.2
      ∧ (GenerateTestFiles id (traced FS.writeFile) demo (FS.empty, [])).2.2
        = (GenerateTestFiles id (traced FS.writeFile) demoOtherImports (FS.empty, [])).2.2 :=
  ⟨by decide, by decide,
    ((Pass.reads_only_its_fields id FS.writeFile FS.empty demo demoOtherTests).1
      rfl rfl rfl rfl).1.2,
    ((Pass.reads_only_its_fields id FS.writeFile FS.empty demo demoOtherImports).2
      rfl rfl rfl rfl).2⟩

end Pdatagen
